import Mathlib

/-!
# State snapshot generation (cmd/state/generate/generate_state_snapshot.go)

A shallow embedding of `GenerateStateSnapshot`.  The Go function is one long
procedure that talks to collaborators living in other packages (the LMDB
key-value store, the write batch, the account codec, the trie, the hash).
The procedure itself is translated statement by statement; the collaborators
are either parameters collected in `Env` / `KV`, or, where a property depends
on what they compute, small models written from the specification.

Conventions:
* a Go `[]byte` is a `List Nat` (every element below 256), `nil` is `[]`;
* a Go `uint64` is a `Nat`, arithmetic on it is reduced modulo `2 ^ 64`;
* a Go `error` is an `Option GoError` (`none` is `nil`);
* progress printing (`fmt.Println`) has no effect on the data and is left out;
* a run-time panic (slice bounds, `MustOpen`) is an explicit outcome;
* the visit counter `i` (a Go `int`) is a `Nat`: it cannot wrap within a run;
* the signal channel is an oracle `interrupted`: whether a signal is ready when
  the visitor polls the channel at a given visit.
-/

namespace Generate

/-- Go byte slices. -/
abbrev Bytes := List Nat

/-- Go error values: the sentinel `ethdb.ErrKeyNotFound`, compared by identity
in the source, and errors made by `errors.New` / `fmt.Errorf` or handed back
by a collaborator, which carry a message. -/
inductive GoError where
  | ErrKeyNotFound : GoError
  | New (msg : String) : GoError
deriving DecidableEq, Repr

/-- The `Error()` method: the message of an error. -/
def GoError.Error : GoError → String
  | .ErrKeyNotFound => "db: key not found"
  | .New msg => msg

/-- The tables named by the source (`dbutils.*Bucket`). -/
inductive Bucket where
  | PlainStateBucket
  | PlainContractCodeBucket
  | CodeBucket
  | SnapshotInfoBucket
  | AccountsHistoryBucket
  | StorageHistoryBucket
deriving DecidableEq, Repr

/-! ## package common -/

/-- Value of `common.AddressLength`. -/
def AddressLength : Nat := 20

/-- Value of `common.HashLength`. -/
def HashLength : Nat := 32

/-- Value of `common.IncarnationLength`. -/
def IncarnationLength : Nat := 8

/-- One lower-case hexadecimal digit. -/
def hexDigit (n : Nat) : Char :=
  match n % 16 with
  | 0 => '0' | 1 => '1' | 2 => '2' | 3 => '3' | 4 => '4' | 5 => '5' | 6 => '6' | 7 => '7'
  | 8 => '8' | 9 => '9' | 10 => 'a' | 11 => 'b' | 12 => 'c' | 13 => 'd' | 14 => 'e'
  | _ => 'f'

/-- The characters of the hexadecimal rendering of a byte slice. -/
def hexChars : Bytes → List Char
  | [] => []
  | b :: bs => hexDigit (b / 16) :: hexDigit b :: hexChars bs

/-- Rendering of a byte slice by `common.Bytes2Hex` and by the `%x` verb of
`fmt`: two lower-case hexadecimal digits per byte. -/
def Bytes2Hex (b : Bytes) : String := String.mk (hexChars b)

/-- The function `common.CopyBytes`: a fresh slice with the same content. -/
def CopyBytes (b : Bytes) : Bytes := b

/-- Go `SetBytes` on a fixed array of `n` bytes: a longer input is cropped from
the left, a shorter one is left-padded with zeros. -/
def setBytes (n : Nat) (b : Bytes) : Bytes :=
  List.replicate (n - b.length) 0 ++ b.drop (b.length - n)

/-- The function `common.BytesToAddress`. -/
def BytesToAddress (b : Bytes) : Bytes := setBytes AddressLength b

/-- The function `common.BytesToHash`. -/
def BytesToHash (b : Bytes) : Bytes := setBytes HashLength b

/-! ## package dbutils -/

/-- Big-endian `binary.BigEndian.PutUint64`: the eight bytes of a `uint64`. -/
def PutUint64 (n : Nat) : Bytes :=
  [n / 2 ^ 56 % 256, n / 2 ^ 48 % 256, n / 2 ^ 40 % 256, n / 2 ^ 32 % 256,
   n / 2 ^ 24 % 256, n / 2 ^ 16 % 256, n / 2 ^ 8 % 256, n % 256]

/-- Big-endian `binary.BigEndian.Uint64`: the number held by eight bytes. -/
def Uint64 (b : Bytes) : Nat :=
  (b.take 8).foldl (fun a x => a * 256 + x) 0

/-- Go `copy(dst, src)` into a zeroed buffer of `n` bytes. -/
def copyInto (n : Nat) (src : Bytes) : Bytes :=
  src.take n ++ List.replicate (n - src.length) 0

/-- Modelled from the spec: `dbutils.PlainGenerateStoragePrefix` is not part of
the source file.  The spec gives the layout of the scoping prefix of one
account pass as `address || incarnation` (20 + 8 bytes); the incarnation is
written big-endian. -/
def PlainGenerateStoragePrefix (address : Bytes) (incarnation : Nat) : Bytes :=
  copyInto AddressLength address ++ PutUint64 incarnation

/-- Modelled from the spec: `dbutils.PlainGenerateCompositeStorageKey` is not part
of the source file.  The spec gives the layout of the composite storage key as
`address (20 bytes) || incarnation (8 bytes) || storage-slot-key (32 bytes)`;
the incarnation is written big-endian. -/
def PlainGenerateCompositeStorageKey (address : Bytes) (incarnation : Nat)
    (key : Bytes) : Bytes :=
  copyInto AddressLength address ++ PutUint64 incarnation ++ copyInto HashLength key

/-! ## package accounts -/

/-- The record `accounts.Account`. -/
structure Account where
  Initialised : Bool
  Nonce : Nat
  Balance : Nat
  Root : Bytes
  CodeHash : Bytes
  Incarnation : Nat
deriving DecidableEq, Repr

/-! ## The source store and the temporal walker -/

/-- One logical key of the source store with its recorded changes, oldest
first: the block of the change and the value written (`none` is the deletion
marker). -/
structure VersionedEntry where
  bucket : Bucket
  key : Bytes
  changes : List (Nat × Option Bytes)
deriving DecidableEq, Repr

/-- The opened source store `kv` as the procedure uses it: the versioned
content that `state.WalkAsOf` resolves, in cursor (ascending key) order, and
the point lookup `tx2.Get`. -/
structure KV where
  entries : List VersionedEntry
  Get : Bucket → Bytes → Except GoError Bytes

/-- Modelled from the spec: the as-of resolution of `state.WalkAsOf`, which is not
part of the source file.  The value current below the bound `timestamp` is
the one written by the most recent change at a block strictly below it;
there is none when no such change exists or when it is a deletion. -/
def valueAsOf (changes : List (Nat × Option Bytes)) (timestamp : Nat) : Option Bytes :=
  match (changes.filter (fun c => decide (c.1 < timestamp))).getLast? with
  | some (_, some v) => some v
  | _ => none

/-- Modelled from the spec: the key restriction of `state.WalkAsOf`.  A key matches
when its first `fixedbits` bits are those of `startkey`. -/
def matchesFixedBits (startkey : Bytes) (fixedbits : Nat) (key : Bytes) : Bool :=
  decide (key.take (fixedbits / 8) = startkey.take (fixedbits / 8)) &&
    (decide (fixedbits % 8 = 0) ||
      decide ((key.drop (fixedbits / 8)).headD 0 / 2 ^ (8 - fixedbits % 8)
        = (startkey.drop (fixedbits / 8)).headD 0 / 2 ^ (8 - fixedbits % 8)))

/-- Modelled from the spec: the sequence of `(key, value)` pairs that
`state.WalkAsOf` hands to its visitor, one per logical key of the table that
matches the restriction and has a value as of the bound, in cursor order. -/
def asOfView (kv : KV) (bucket : Bucket) (startkey : Bytes) (fixedbits : Nat)
    (timestamp : Nat) : List (Bytes × Bytes) :=
  kv.entries.filterMap fun e =>
    if e.bucket = bucket ∧ matchesFixedBits startkey fixedbits e.key = true then
      (valueAsOf e.changes timestamp).map fun v => (e.key, v)
    else none

/-- What a Go visitor `func(k, v []byte) (bool, error)` does: it returns, or
the goroutine panics. -/
inductive VisitResult where
  | ret (goOn : Bool) (err : Option GoError)
  | runtimePanic
deriving DecidableEq, Repr

/-- How a walk ended: every entry was visited, the visitor asked to stop, the
visitor returned an error, or it panicked. -/
inductive WalkStatus where
  | completed
  | stopped
  | failed (e : GoError)
  | panicked
deriving DecidableEq, Repr

/-- Modelled from the spec: the visiting loop of `state.WalkAsOf`.  The visitor
is called on the entries in order; a non-nil error stops the walk and is
propagated, a false `continue` flag stops it without error. -/
def walkEntries {σ : Type} (visit : σ → Bytes → Bytes → σ × VisitResult) :
    List (Bytes × Bytes) → σ → σ × WalkStatus
  | [], s => (s, .completed)
  | (k, v) :: rest, s =>
    match visit s k v with
    | (s1, .ret _ (some e)) => (s1, .failed e)
    | (s1, .ret false none) => (s1, .stopped)
    | (s1, .ret true none) => walkEntries visit rest s1
    | (s1, .runtimePanic) => (s1, .panicked)

/-! ## The write batch `mt` -/

/-- One staged mutation `(table, key, value)`. -/
structure Write where
  bucket : Bucket
  key : Bytes
  value : Bytes
deriving DecidableEq, Repr

/-- The batch `mt := sndb.NewBatch()`: the writes staged since the last commit,
in staging order, and the batches committed so far. -/
structure Batch where
  staged : List Write
  committed : List (List Write)
deriving DecidableEq, Repr

/-- The collaborators of the procedure that are not part of the source file,
taken as parameters. -/
structure Env where
  /-- Result of `os.RemoveAll` on a path. -/
  RemoveAll : String → Option GoError
  /-- The source store found at a path by `ethdb.NewLMDB().Path(p).MustOpen()`;
  `none` when `MustOpen` panics. -/
  openSource : String → Option KV
  /-- Whether `MustOpen` succeeds for the destination store at a path. -/
  openSnapshot : String → Bool
  /-- Result of `torrent.SnapshotModeFromString`. -/
  SnapshotModeFromString : String → Except GoError Nat
  /-- Result of `torrent.WrapBySnapshots`. -/
  WrapBySnapshots : KV → String → Nat → Except GoError KV
  /-- Result of the n-th call of `kv.Begin`. -/
  Begin : Nat → Option GoError
  /-- Whether an interrupt is ready on the signal channel when it is polled at
  visit number `i`. -/
  interrupted : Nat → Bool
  /-- Result of `acc.DecodeForStorage`. -/
  DecodeForStorage : Bytes → Except GoError Account
  /-- Result of `acc.EncodeForStorage` into a buffer of `EncodingLengthForStorage`. -/
  EncodeForStorage : Account → Bytes
  /-- Result of `common.HashData`. -/
  HashData : Bytes → Bytes
  /-- The type `trie.Trie`. -/
  Trie : Type
  /-- Result of `trie.New(common.Hash{})`. -/
  trieNew : Trie
  /-- Effect of `t.Update`. -/
  trieUpdate : Trie → Bytes → Bytes → Trie
  /-- Result of `t.Hash()`. -/
  trieHash : Trie → Bytes
  /-- Immediate failure of `mt.Put`, if any. -/
  Put : Bucket → Bytes → Bytes → Option GoError
  /-- Result of `mt.BatchSize()` for the writes staged. -/
  BatchSize : List Write → Nat
  /-- Result of `mt.IdealBatchSize()`. -/
  IdealBatchSize : Nat
  /-- Failure of `mt.CommitAndBegin` on the writes staged, if any. -/
  CommitAndBegin : List Write → Option GoError
  /-- Failure of `mt.Commit` on the writes staged, if any. -/
  Commit : List Write → Option GoError

/-- The call `mt.Put(bucket, key, value)`: the write is staged unless the batch
refuses it. -/
def mtPut (env : Env) (mt : Batch) (bucket : Bucket) (key value : Bytes) :
    Batch × Option GoError :=
  match env.Put bucket key value with
  | some e => (mt, some e)
  | none => ({ mt with staged := mt.staged ++ [⟨bucket, key, value⟩] }, none)

/-- The call `mt.CommitAndBegin(ctx)`: the staged writes become a committed batch
and staging starts afresh, unless the commit fails. -/
def mtCommitAndBegin (env : Env) (mt : Batch) : Batch × Option GoError :=
  match env.CommitAndBegin mt.staged with
  | some e => (mt, some e)
  | none => (⟨[], mt.committed ++ [mt.staged]⟩, none)

/-- The call `mt.Commit()`: the final commit of the staged writes. -/
def mtCommit (env : Env) (mt : Batch) : Batch × Option GoError :=
  match env.Commit mt.staged with
  | some e => (mt, some e)
  | none => (⟨[], mt.committed ++ [mt.staged]⟩, none)

/-! ## The procedure -/

/-- The expression `toBlock+1` on `uint64`. -/
def asOfBound (toBlock : Nat) : Nat := (toBlock + 1) % 2 ^ 64

/-- The inner visitor (source lines 107 to 121), run for each storage entry
`(kk, vv)` of the account at `k`: it stages the entry under the rebuilt
composite key and updates the trie `t` of the account.  The comparison of
`kk[:20]` with `k` only prints, so `k` is not an argument; the slices `kk[:20]`
and `kk[20:]` panic on a key shorter than twenty bytes. -/
def innerVisitor (env : Env) (acc : Account) (st : Batch × env.Trie)
    (kk vv : Bytes) : (Batch × env.Trie) × VisitResult :=
  if kk.length < AddressLength then (st, .runtimePanic)
  else
    match mtPut env st.1 .PlainStateBucket
        (PlainGenerateCompositeStorageKey (BytesToAddress (kk.take AddressLength))
          acc.Incarnation (BytesToHash (kk.drop AddressLength)))
        (CopyBytes vv) with
    | (mt1, some innerErr1) => ((mt1, st.2), .ret false (some innerErr1))
    | (mt1, none) =>
      ((mt1, env.trieUpdate st.2 (env.HashData (kk.drop AddressLength)) (CopyBytes vv)),
        .ret true none)

/-- The inner call of `state.WalkAsOf` (source line 107): the storage entries of
the account at `k` as of the bound.  The history table named in the call
(`StorageHistoryBucket`) is where the walker finds the changes; in the model
the changes sit with the entry. -/
def storageEntries (kv : KV) (toBlock : Nat) (k : Bytes) (acc : Account) :
    List (Bytes × Bytes) :=
  asOfView kv .PlainStateBucket (PlainGenerateStoragePrefix k acc.Incarnation)
    (8 * (AddressLength + IncarnationLength)) (asOfBound toBlock)

/-- Source lines 127 to 148: the code-hash pointer and the code of the account
are copied.  The result is the batch and the error returned, if any. -/
def copyCode (env : Env) (kv : KV) (k : Bytes) (acc : Account) (mt : Batch) :
    Batch × Option GoError :=
  match (match kv.Get .PlainContractCodeBucket
        (PlainGenerateStoragePrefix k acc.Incarnation) with
      | .ok codeHash => Except.ok codeHash
      | .error err =>
        if err = GoError.ErrKeyNotFound then Except.ok []
        else Except.error
          (GoError.New ("getting code hash for " ++ Bytes2Hex k ++ ": " ++ err.Error))) with
  | .error e => (mt, some e)
  | .ok codeHash =>
    match mtPut env mt .PlainContractCodeBucket
        (PlainGenerateStoragePrefix k acc.Incarnation) codeHash with
    | (mt1, some err) => (mt1, some err)
    | (mt1, none) =>
      if codeHash.length > 0 then
        match kv.Get .CodeBucket codeHash with
        | .error err => (mt1, some err)
        | .ok code => mtPut env mt1 .CodeBucket codeHash code
      else (mt1, none)

/-- Source lines 103 to 151, the branch `acc.Incarnation>0`: the storage of the
account is walked into a fresh trie, its code is copied and `acc.Root` is
replaced by the hash of the trie. -/
def processStorage (env : Env) (kv : KV) (toBlock : Nat) (k : Bytes) (acc : Account)
    (mt : Batch) : Batch × Except VisitResult Account :=
  match walkEntries (innerVisitor env acc) (storageEntries kv toBlock k acc)
      (mt, env.trieNew) with
  | ((mt1, _), .panicked) => (mt1, .error .runtimePanic)
  | ((mt1, _), .failed innerErr) => (mt1, .error (.ret false (some innerErr)))
  | ((mt1, t), _) =>
    match copyCode env kv k acc mt1 with
    | (mt2, some err) => (mt2, .error (.ret false (some err)))
    | (mt2, none) => (mt2, .ok { acc with Root := env.trieHash t })

/-- Source lines 152 to 168: the account is encoded and staged, and the batch is
flushed when it has reached its ideal size. -/
def stageAccount (env : Env) (k : Bytes) (acc : Account) (mt : Batch) :
    Batch × VisitResult :=
  match mtPut env mt .PlainStateBucket (CopyBytes k) (env.EncodeForStorage acc) with
  | (mt1, some innerErr) => (mt1, .ret false (some innerErr))
  | (mt1, none) =>
    if env.BatchSize mt1.staged ≥ env.IdealBatchSize then
      match mtCommitAndBegin env mt1 with
      | (mt2, some innerErr) => (mt2, .ret false (some innerErr))
      | (mt2, none) => (mt2, .ret true none)
    else (mt1, .ret true none)

/-- The state the outer visitor closes over: the counter `i` and the batch `mt`. -/
structure RunState where
  i : Nat
  mt : Batch
deriving DecidableEq, Repr

/-- The outer visitor (source lines 82 to 169), run for each entry `(k, v)` of
the account walk. -/
def outerVisitor (env : Env) (kv : KV) (toBlock : Nat) (s : RunState) (k v : Bytes) :
    RunState × VisitResult :=
  if (s.i + 1) % 10000 = 0 ∧ env.interrupted (s.i + 1) = true then
    (⟨s.i + 1, s.mt⟩, .ret false (some (.New "interrupted")))
  else if k.length ≠ 20 then (⟨s.i + 1, s.mt⟩, .ret true none)
  else
    match env.DecodeForStorage v with
    | .error err =>
      (⟨s.i + 1, s.mt⟩, .ret false (some (.New
        ("decoding " ++ Bytes2Hex v ++ " for " ++ Bytes2Hex k ++ ": " ++ err.Error))))
    | .ok acc =>
      if acc.Incarnation > 0 then
        match processStorage env kv toBlock k acc s.mt with
        | (mt1, .error r) => (⟨s.i + 1, mt1⟩, r)
        | (mt1, .ok acc1) =>
          match stageAccount env k acc1 mt1 with
          | (mt2, r) => (⟨s.i + 1, mt2⟩, r)
      else
        match stageAccount env k acc s.mt with
        | (mt2, r) => (⟨s.i + 1, mt2⟩, r)

/-- The outer call of `state.WalkAsOf` (source line 82): every key of the
plain state table as of the bound (empty start key, no fixed bits).  The
history table named in the call (`AccountsHistoryBucket`) is where the walker
finds the changes; in the model the changes sit with the entry. -/
def accountEntries (kv : KV) (toBlock : Nat) : List (Bytes × Bytes) :=
  asOfView kv .PlainStateBucket [] 0 (asOfBound toBlock)

/-- The effects of the procedure on its surroundings, in the order performed.
`Begin n` records that the n-th call of `kv.Begin` opened a transaction (`tx`
is number 0, `tx2` number 1), `Rollback n` that it was rolled back. -/
inductive Event where
  | RemoveAll (path : String)
  | OpenSource (path : String)
  | WrapBySnapshots (dir : String)
  | OpenSnapshot (path : String)
  | Begin (n : Nat)
  | Rollback (n : Nat)
deriving DecidableEq, Repr

/-- How the procedure ended: it returned an error value, or it panicked. -/
inductive Outcome where
  | returned (err : Option GoError)
  | panicked
deriving DecidableEq, Repr

/-- What a run leaves behind: the effects performed, the batch, and the outcome. -/
structure Run where
  events : List Event
  mt : Batch
  outcome : Outcome
deriving DecidableEq, Repr

/-- Source lines 33 to 44: the source store is wrapped when a snapshot directory
is given. -/
def wrapSource (env : Env) (kv : KV) (snapshotDir snapshotMode : String) :
    List Event × Except GoError KV :=
  if snapshotDir ≠ "" then
    match env.SnapshotModeFromString snapshotMode with
    | .error err => ([], .error err)
    | .ok mode =>
      match env.WrapBySnapshots kv snapshotDir mode with
      | .error err => ([.WrapBySnapshots snapshotDir], .error err)
      | .ok kv1 => ([.WrapBySnapshots snapshotDir], .ok kv1)
  else ([], .ok kv)

/-- Source lines 77 to 179, run once both read transactions are open and
`tx.Rollback` is deferred: the account walk, the final commit, and the
deferred rollback on the way out. -/
def walkAndCommit (env : Env) (kv : KV) (toBlock : Nat) (events : List Event) : Run :=
  match walkEntries (outerVisitor env kv toBlock) (accountEntries kv toBlock)
      ⟨0, ⟨[], []⟩⟩ with
  | (s, .panicked) => ⟨events ++ [.Rollback 0], s.mt, .panicked⟩
  | (s, .failed err) => ⟨events ++ [.Rollback 0], s.mt, .returned (some err)⟩
  | (s, _) =>
    match mtCommit env s.mt with
    | (mt1, some err) => ⟨events ++ [.Rollback 0], mt1, .returned (some err)⟩
    | (mt1, none) => ⟨events ++ [.Rollback 0], mt1, .returned none⟩

/-- The procedure `GenerateStateSnapshot`. -/
def GenerateStateSnapshot (env : Env) (dbPath snapshotPath : String) (toBlock : Nat)
    (snapshotDir snapshotMode : String) : Run :=
  if snapshotPath = "" then
    ⟨[], ⟨[], []⟩, .returned (some (.New "empty snapshot path"))⟩
  else
    match env.RemoveAll snapshotPath with
    | some err => ⟨[.RemoveAll snapshotPath], ⟨[], []⟩, .returned (some err)⟩
    | none =>
      match env.openSource dbPath with
      | none => ⟨[.RemoveAll snapshotPath], ⟨[], []⟩, .panicked⟩
      | some kv0 =>
        match wrapSource env kv0 snapshotDir snapshotMode with
        | (ev, .error err) =>
          ⟨[.RemoveAll snapshotPath, .OpenSource dbPath] ++ ev, ⟨[], []⟩,
            .returned (some err)⟩
        | (ev, .ok kv) =>
          if env.openSnapshot snapshotPath = false then
            ⟨[.RemoveAll snapshotPath, .OpenSource dbPath] ++ ev, ⟨[], []⟩, .panicked⟩
          else
            match env.Begin 0 with
            | some err =>
              ⟨[.RemoveAll snapshotPath, .OpenSource dbPath] ++ ev
                ++ [.OpenSnapshot snapshotPath], ⟨[], []⟩, .returned (some err)⟩
            | none =>
              match env.Begin 1 with
              | some err =>
                ⟨[.RemoveAll snapshotPath, .OpenSource dbPath] ++ ev
                  ++ [.OpenSnapshot snapshotPath, .Begin 0], ⟨[], []⟩,
                  .returned (some err)⟩
              | none =>
                walkAndCommit env kv toBlock
                  ([.RemoveAll snapshotPath, .OpenSource dbPath] ++ ev
                    ++ [.OpenSnapshot snapshotPath, .Begin 0, .Begin 1])

/-! ## A small concrete instance, used to evaluate the procedure -/

/-- A toy account codec: nonce, balance and incarnation on one byte each,
followed by the storage root. -/
def demoDecode : Bytes → Except GoError Account
  | nonce :: balance :: incarnation :: root =>
    .ok ⟨true, nonce, balance, root, [], incarnation⟩
  | _ => .error (.New "short account")

/-- The encoder of the toy account codec. -/
def demoEncode (acc : Account) : Bytes :=
  acc.Nonce :: acc.Balance :: acc.Incarnation :: acc.Root

/-- A toy point lookup over a list of `(table, key, value)` rows; a missing
key is reported by `ethdb.ErrKeyNotFound`. -/
def demoGet (rows : List Write) (bucket : Bucket) (key : Bytes) : Except GoError Bytes :=
  match rows.find? (fun w => decide (w.bucket = bucket ∧ w.key = key)) with
  | some w => .ok w.value
  | none => .error .ErrKeyNotFound

/-- A source store with the given versioned content and lookup rows. -/
def demoKV (entries : List VersionedEntry) (rows : List Write) : KV :=
  ⟨entries, demoGet rows⟩

/-- An environment in which every collaborator succeeds, except as the
arguments say: the source store found at any path, the result of the second
`kv.Begin`, and the visits at which an interrupt is pending.  The hash is
the identity and the trie is the list of its updates, so that the bytes
handed to them can be read off the result. -/
def demoEnv (kv : KV) (begin1 : Option GoError) (interrupted : Nat → Bool) : Env where
  RemoveAll := fun _ => none
  openSource := fun _ => some kv
  openSnapshot := fun _ => true
  SnapshotModeFromString := fun _ => .ok 0
  WrapBySnapshots := fun kv0 _ _ => .ok kv0
  Begin := fun n => if n = 1 then begin1 else none
  interrupted := interrupted
  DecodeForStorage := demoDecode
  EncodeForStorage := demoEncode
  HashData := fun b => b
  Trie := List (Bytes × Bytes)
  trieNew := []
  trieUpdate := fun t key value => t ++ [(key, value)]
  trieHash := fun t => (t.map fun p => p.1 ++ p.2).flatten
  Put := fun _ _ _ => none
  BatchSize := fun staged => staged.length
  IdealBatchSize := 1000
  CommitAndBegin := fun _ => none
  Commit := fun _ => none

/-- The twenty-byte address used in the examples. -/
def demoAddress : Bytes := List.replicate 20 170

/-- A thirty-two-byte storage slot used in the examples. -/
def demoSlot : Bytes := List.replicate 32 1

/-- A source store for the examples: at `demoAddress` a value that the toy codec
cannot decode, followed by a well-formed account at a later address. -/
def undecodableKV : KV :=
  demoKV
    [⟨.PlainStateBucket, demoAddress, [(0, some [])]⟩,
     ⟨.PlainStateBucket, List.replicate 20 187, [(0, some [1, 5, 0])]⟩] []


/-- The all-zero address, the first key of the store of the next example. -/
def zeroAddress : Bytes := List.replicate 20 0

/-- The key of the `j`-th storage row of the contract at address `01…01`,
incarnation 1: sixty bytes, so the account walk skips the row. -/
def storageRowKey (j : Nat) : Bytes :=
  List.replicate 20 1 ++ PutUint64 1 ++ (List.replicate 30 0 ++ [j / 256 % 256, j % 256])

/-- The `j`-th storage row: written once, at block 0. -/
def storageRow (j : Nat) : VersionedEntry :=
  ⟨.PlainStateBucket, storageRowKey j, [(0, some [7])]⟩

/-- The storage rows `start`, `start + 1`, ... (`n` of them), in key order. -/
def storageRowsFrom (start : Nat) : Nat → List VersionedEntry
  | 0 => []
  | n + 1 => storageRow start :: storageRowsFrom (start + 1) n

/-- A source store with one account followed by 9999 storage rows, so that the
visit counter reaches 10000, where the signal channel is polled. -/
def interruptedKV : KV :=
  demoKV (⟨.PlainStateBucket, zeroAddress, [(0, some [1, 5, 0])]⟩
    :: storageRowsFrom 0 9999) []

/-- What the account walk yields for `storageRowsFrom start n`. -/
def storagePairsFrom (start : Nat) : Nat → List (Bytes × Bytes)
  | 0 => []
  | n + 1 => (storageRowKey start, [7]) :: storagePairsFrom (start + 1) n


/-- A second storage slot used in the examples. -/
def demoSlot2 : Bytes := List.replicate 32 2

/-- The versioned content of a small source store: a contract account at
`demoAddress` (nonce 1, balance 5, incarnation 1) with two storage slots, the
second of which is overwritten at block 20. -/
def contractEntries : List VersionedEntry :=
  [⟨.PlainStateBucket, demoAddress, [(2, some [1, 5, 1])]⟩,
   ⟨.PlainStateBucket, demoAddress ++ PutUint64 1 ++ demoSlot, [(10, some [7])]⟩,
   ⟨.PlainStateBucket, demoAddress ++ PutUint64 1 ++ demoSlot2,
      [(10, some [8]), (20, some [99])]⟩]

/-- The contract store with its code-hash pointer and its code. -/
def contractKV : KV :=
  demoKV contractEntries
    [⟨.PlainContractCodeBucket, demoAddress ++ PutUint64 1, [9, 9]⟩,
     ⟨.CodeBucket, [9, 9], [96, 0]⟩]

/-- The contract store with its code-hash pointer but without the code. -/
def missingCodeKV : KV :=
  demoKV contractEntries [⟨.PlainContractCodeBucket, demoAddress ++ PutUint64 1, [9, 9]⟩]

/-- The contract account as the toy codec decodes it. -/
def contractAccount : Account := ⟨true, 1, 5, [], [], 1⟩


/-- The example environment with an ideal batch size of two writes, so that the
batch is flushed after every account. -/
def flushEnv (kv : KV) : Env :=
  { demoEnv kv none (fun _ => false) with IdealBatchSize := 2 }


/-! ## What one account contributes to the batch -/

/-- The write staged by the inner visitor for a storage entry `(kk, vv)`. -/
def storageWrite (acc : Account) (e : Bytes × Bytes) : Write :=
  ⟨.PlainStateBucket,
    PlainGenerateCompositeStorageKey (BytesToAddress (e.1.take AddressLength))
      acc.Incarnation (BytesToHash (e.1.drop AddressLength)),
    CopyBytes e.2⟩

/-- The trie update made by the inner visitor for a storage entry `(kk, vv)`. -/
def trieStep (env : Env) (t : env.Trie) (e : Bytes × Bytes) : env.Trie :=
  env.trieUpdate t (env.HashData (e.1.drop AddressLength)) (CopyBytes e.2)

/-- The code-hash pointer copied for an account: the value found in the source,
empty when the key is not found. -/
def codeHashPointer (kv : KV) (k : Bytes) (acc : Account) : Bytes :=
  match kv.Get .PlainContractCodeBucket (PlainGenerateStoragePrefix k acc.Incarnation) with
  | .ok codeHash => codeHash
  | .error _ => []

/-- The writes staged by a successful copy of the code of an account: the
code-hash pointer, and the code itself when the pointer is not empty. -/
def codeWrites (kv : KV) (k : Bytes) (acc : Account) : List Write :=
  ⟨.PlainContractCodeBucket, PlainGenerateStoragePrefix k acc.Incarnation,
      codeHashPointer kv k acc⟩ ::
    (if (codeHashPointer kv k acc).length > 0 then
      match kv.Get .CodeBucket (codeHashPointer kv k acc) with
      | .ok code => [⟨.CodeBucket, codeHashPointer kv k acc, code⟩]
      | .error _ => []
    else [])

/-- The storage root computed for an account: the hash of a fresh trie updated
with every storage entry of the account as of the bound. -/
def storageRoot (env : Env) (kv : KV) (toBlock : Nat) (k : Bytes) (acc : Account) : Bytes :=
  env.trieHash ((storageEntries kv toBlock k acc).foldl (trieStep env) env.trieNew)

/-- The account as it is encoded for the destination: unchanged when its
incarnation is zero, with only `Root` replaced otherwise. -/
def patchedAccount (env : Env) (kv : KV) (toBlock : Nat) (k : Bytes) (acc : Account) :
    Account :=
  if acc.Incarnation > 0 then { acc with Root := storageRoot env kv toBlock k acc } else acc

/-- The record staged for an account under its address. -/
def accountWrite (env : Env) (kv : KV) (toBlock : Nat) (k : Bytes) (acc : Account) : Write :=
  ⟨.PlainStateBucket, CopyBytes k, env.EncodeForStorage (patchedAccount env kv toBlock k acc)⟩

/-- All the writes staged by a successful visit of an account, in staging
order: its storage entries, its code-hash pointer and code, then its record. -/
def accountGroup (env : Env) (kv : KV) (toBlock : Nat) (k : Bytes) (acc : Account) :
    List Write :=
  (if acc.Incarnation > 0 then
      (storageEntries kv toBlock k acc).map (storageWrite acc) ++ codeWrites kv k acc
    else []) ++ [accountWrite env kv toBlock k acc]

/-- The setup of the procedure succeeded: the path is not empty, the old
snapshot was removed, both stores were opened (the source wrapped if asked),
and both read transactions were begun.  `kv` is the source store in use and
`events` the effects performed so far. -/
def Started (env : Env) (dbPath snapshotPath snapshotDir snapshotMode : String)
    (kv : KV) (events : List Event) : Prop :=
  snapshotPath ≠ "" ∧ env.RemoveAll snapshotPath = none ∧
  ∃ kv0 ev, env.openSource dbPath = some kv0 ∧
    wrapSource env kv0 snapshotDir snapshotMode = (ev, .ok kv) ∧
    env.openSnapshot snapshotPath = true ∧ env.Begin 0 = none ∧ env.Begin 1 = none ∧
    events = [.RemoveAll snapshotPath, .OpenSource dbPath] ++ ev
      ++ [.OpenSnapshot snapshotPath, .Begin 0, .Begin 1]

/-- The error returns of the outer visitor for an account entry `(k, v)`
visited with batch `mt`, one case per `return false, err` of the source, each
under the conditions in which the source reaches it.  The indices are the
batch at that point and the error returned. -/
inductive VisitError (env : Env) (kv : KV) (toBlock : Nat) (mt : Batch) (k v : Bytes) :
    Batch → GoError → Prop where
  /-- Line 100: `acc.DecodeForStorage(v)` returned an error. -/
  | decode (err : GoError) :
    env.DecodeForStorage v = .error err →
    VisitError env kv toBlock mt k v mt
      (.New ("decoding " ++ Bytes2Hex v ++ " for " ++ Bytes2Hex k ++ ": " ++ err.Error))
  /-- Line 124: the inner storage walk returned an error. -/
  | storageWalk (acc : Account) (mt1 : Batch) (t : env.Trie) (e : GoError) :
    env.DecodeForStorage v = .ok acc → acc.Incarnation > 0 →
    walkEntries (innerVisitor env acc) (storageEntries kv toBlock k acc) (mt, env.trieNew)
      = ((mt1, t), .failed e) →
    VisitError env kv toBlock mt k v mt1 e
  /-- Line 130: the lookup of the code-hash pointer returned an error other than
  `ErrKeyNotFound`. -/
  | codeHashLookup (acc : Account) (mt1 : Batch) (t : env.Trie) (err : GoError) :
    env.DecodeForStorage v = .ok acc → acc.Incarnation > 0 →
    walkEntries (innerVisitor env acc) (storageEntries kv toBlock k acc) (mt, env.trieNew)
      = ((mt1, t), .completed) →
    kv.Get .PlainContractCodeBucket (PlainGenerateStoragePrefix k acc.Incarnation)
      = .error err →
    err ≠ .ErrKeyNotFound →
    VisitError env kv toBlock mt k v mt1
      (.New ("getting code hash for " ++ Bytes2Hex k ++ ": " ++ err.Error))
  /-- Line 134: staging the code-hash pointer returned an error. -/
  | codeHashPut (acc : Account) (mt1 : Batch) (t : env.Trie) (e : GoError) :
    env.DecodeForStorage v = .ok acc → acc.Incarnation > 0 →
    walkEntries (innerVisitor env acc) (storageEntries kv toBlock k acc) (mt, env.trieNew)
      = ((mt1, t), .completed) →
    (∀ err, kv.Get .PlainContractCodeBucket (PlainGenerateStoragePrefix k acc.Incarnation)
      = .error err → err = .ErrKeyNotFound) →
    env.Put .PlainContractCodeBucket (PlainGenerateStoragePrefix k acc.Incarnation)
      (codeHashPointer kv k acc) = some e →
    VisitError env kv toBlock mt k v mt1 e
  /-- Line 141: the code-hash pointer is not empty and the lookup of the code
  returned an error. -/
  | codeLookup (acc : Account) (mt1 : Batch) (t : env.Trie) (e : GoError) :
    env.DecodeForStorage v = .ok acc → acc.Incarnation > 0 →
    walkEntries (innerVisitor env acc) (storageEntries kv toBlock k acc) (mt, env.trieNew)
      = ((mt1, t), .completed) →
    (∀ err, kv.Get .PlainContractCodeBucket (PlainGenerateStoragePrefix k acc.Incarnation)
      = .error err → err = .ErrKeyNotFound) →
    env.Put .PlainContractCodeBucket (PlainGenerateStoragePrefix k acc.Incarnation)
      (codeHashPointer kv k acc) = none →
    (codeHashPointer kv k acc).length > 0 →
    kv.Get .CodeBucket (codeHashPointer kv k acc) = .error e →
    VisitError env kv toBlock mt k v
      ⟨mt1.staged ++ [⟨.PlainContractCodeBucket,
        PlainGenerateStoragePrefix k acc.Incarnation, codeHashPointer kv k acc⟩],
        mt1.committed⟩ e
  /-- Line 145: staging the code returned an error. -/
  | codePut (acc : Account) (mt1 : Batch) (t : env.Trie) (code : Bytes) (e : GoError) :
    env.DecodeForStorage v = .ok acc → acc.Incarnation > 0 →
    walkEntries (innerVisitor env acc) (storageEntries kv toBlock k acc) (mt, env.trieNew)
      = ((mt1, t), .completed) →
    (∀ err, kv.Get .PlainContractCodeBucket (PlainGenerateStoragePrefix k acc.Incarnation)
      = .error err → err = .ErrKeyNotFound) →
    env.Put .PlainContractCodeBucket (PlainGenerateStoragePrefix k acc.Incarnation)
      (codeHashPointer kv k acc) = none →
    (codeHashPointer kv k acc).length > 0 →
    kv.Get .CodeBucket (codeHashPointer kv k acc) = .ok code →
    env.Put .CodeBucket (codeHashPointer kv k acc) code = some e →
    VisitError env kv toBlock mt k v
      ⟨mt1.staged ++ [⟨.PlainContractCodeBucket,
        PlainGenerateStoragePrefix k acc.Incarnation, codeHashPointer kv k acc⟩],
        mt1.committed⟩ e
  /-- Line 156: staging the account record returned an error. -/
  | accountPut (acc : Account) (mt1 : Batch) (acc1 : Account) (e : GoError) :
    env.DecodeForStorage v = .ok acc →
    (acc.Incarnation > 0 ∧ processStorage env kv toBlock k acc mt = (mt1, .ok acc1) ∨
      acc.Incarnation = 0 ∧ mt1 = mt ∧ acc1 = acc) →
    env.Put .PlainStateBucket (CopyBytes k) (env.EncodeForStorage acc1) = some e →
    VisitError env kv toBlock mt k v mt1 e
  /-- Line 164: the flush `mt.CommitAndBegin` returned an error. -/
  | flush (acc : Account) (mt1 : Batch) (acc1 : Account) (e : GoError) :
    env.DecodeForStorage v = .ok acc →
    (acc.Incarnation > 0 ∧ processStorage env kv toBlock k acc mt = (mt1, .ok acc1) ∨
      acc.Incarnation = 0 ∧ mt1 = mt ∧ acc1 = acc) →
    env.Put .PlainStateBucket (CopyBytes k) (env.EncodeForStorage acc1) = none →
    env.IdealBatchSize ≤ env.BatchSize
      (mt1.staged ++ [⟨.PlainStateBucket, CopyBytes k, env.EncodeForStorage acc1⟩]) →
    env.CommitAndBegin
      (mt1.staged ++ [⟨.PlainStateBucket, CopyBytes k, env.EncodeForStorage acc1⟩]) = some e →
    VisitError env kv toBlock mt k v
      ⟨mt1.staged ++ [⟨.PlainStateBucket, CopyBytes k, env.EncodeForStorage acc1⟩],
        mt1.committed⟩ e

/-- A list of writes made of whole account groups: the concatenation of the
groups of some accounts, each group holding the storage entries, the code
and the record of its account. -/
def WholeAccounts (env : Env) (kv : KV) (toBlock : Nat) (batch : List Write) : Prop :=
  ∃ accounts : List (Bytes × Account),
    (∀ p ∈ accounts, p.1.length = 20) ∧
    batch = (accounts.map fun p => accountGroup env kv toBlock p.1 p.2).flatten


/-! ## Lemmas on the walker -/

theorem walkEntries_append_completed {σ : Type}
    (visit : σ → Bytes → Bytes → σ × VisitResult) (post : List (Bytes × Bytes)) :
    ∀ (pre : List (Bytes × Bytes)) (s s1 : σ),
      walkEntries visit pre s = (s1, .completed) →
      walkEntries visit (pre ++ post) s = walkEntries visit post s1 := by
  intro pre
  induction pre with
  | nil =>
    intro s s1 h
    simp only [walkEntries, Prod.mk.injEq, and_true] at h
    simp [h]
  | cons e rest ih =>
    intro s s1 h
    obtain ⟨k, v⟩ := e
    simp only [List.cons_append, walkEntries] at h ⊢
    rcases hv : visit s k v with ⟨s2, r⟩
    rw [hv] at h
    rcases r with ⟨goOn, err⟩ | _
    · cases err with
      | some e => simp at h
      | none =>
        cases goOn with
        | false => simp at h
        | true =>
          simp only at h ⊢
          exact ih s2 s1 h
    · simp at h

theorem walkEntries_failed_at {σ : Type}
    (visit : σ → Bytes → Bytes → σ × VisitResult) (pre post : List (Bytes × Bytes))
    (k v : Bytes) (s s1 s2 : σ) (goOn : Bool) (e : GoError)
    (hpre : walkEntries visit pre s = (s1, .completed))
    (hfail : visit s1 k v = (s2, .ret goOn (some e))) :
    walkEntries visit (pre ++ (k, v) :: post) s = (s2, .failed e) := by
  rw [walkEntries_append_completed visit _ pre s s1 hpre]
  simp [walkEntries, hfail]

/-! ## Lemmas on the steps of the outer visitor -/

theorem mtPut_eq (env : Env) (mt : Batch) (bucket : Bucket) (key value : Bytes) :
    mtPut env mt bucket key value =
      match env.Put bucket key value with
      | some e => (mt, some e)
      | none => (⟨mt.staged ++ [⟨bucket, key, value⟩], mt.committed⟩, none) := rfl

theorem innerVisitor_cases (env : Env) (acc : Account) (mt : Batch) (t : env.Trie)
    (kk vv : Bytes) :
    (kk.length < AddressLength ∧
        innerVisitor env acc (mt, t) kk vv = ((mt, t), .runtimePanic)) ∨
    (∃ e, innerVisitor env acc (mt, t) kk vv = ((mt, t), .ret false (some e))) ∨
    (AddressLength ≤ kk.length ∧ env.Put .PlainStateBucket (storageWrite acc (kk, vv)).key
        (CopyBytes vv) = none ∧
      innerVisitor env acc (mt, t) kk vv =
        ((⟨mt.staged ++ [storageWrite acc (kk, vv)], mt.committed⟩, trieStep env t (kk, vv)),
          .ret true none)) := by
  by_cases hlen : kk.length < AddressLength
  · left
    exact ⟨hlen, by simp [innerVisitor, hlen]⟩
  · right
    cases hput : env.Put .PlainStateBucket (storageWrite acc (kk, vv)).key (CopyBytes vv) with
    | some e =>
      left
      refine ⟨e, ?_⟩
      simp only [storageWrite] at hput
      simp [innerVisitor, hlen, mtPut, hput]
    | none =>
      right
      refine ⟨Nat.le_of_not_lt hlen, rfl, ?_⟩
      simp only [storageWrite] at hput
      simp [innerVisitor, hlen, mtPut, hput, storageWrite, trieStep]

theorem innerWalk_spec (env : Env) (acc : Account) :
    ∀ (es : List (Bytes × Bytes)) (mt : Batch) (t : env.Trie) (mt1 : Batch)
      (t1 : env.Trie) (st : WalkStatus),
      walkEntries (innerVisitor env acc) es (mt, t) = ((mt1, t1), st) →
      mt1.committed = mt.committed ∧ st ≠ .stopped ∧
      (st = .completed →
        mt1.staged = mt.staged ++ es.map (storageWrite acc) ∧
        t1 = es.foldl (trieStep env) t) := by
  intro es
  induction es with
  | nil =>
    intro mt t mt1 t1 st h
    simp only [walkEntries, Prod.mk.injEq] at h
    obtain ⟨⟨h1, h2⟩, h3⟩ := h
    subst h1 h2 h3
    simp
  | cons e rest ih =>
    intro mt t mt1 t1 st h
    obtain ⟨kk, vv⟩ := e
    simp only [walkEntries] at h
    rcases innerVisitor_cases env acc mt t kk vv with ⟨_, hv⟩ | ⟨e, hv⟩ | ⟨_, _, hv⟩
    · rw [hv] at h
      simp only [Prod.mk.injEq] at h
      obtain ⟨⟨h1, h2⟩, h3⟩ := h
      subst h1 h2 h3
      simp
    · rw [hv] at h
      simp only [Prod.mk.injEq] at h
      obtain ⟨⟨h1, h2⟩, h3⟩ := h
      subst h1 h2 h3
      simp
    · rw [hv] at h
      simp only at h
      obtain ⟨hc, hs, hok⟩ := ih _ _ _ _ _ h
      refine ⟨hc, hs, fun hst => ?_⟩
      obtain ⟨h1, h2⟩ := hok hst
      simp [h1, h2]

theorem copyCode_spec (env : Env) (kv : KV) (k : Bytes) (acc : Account) (mt mt2 : Batch)
    (r : Option GoError) (h : copyCode env kv k acc mt = (mt2, r)) :
    mt2.committed = mt.committed ∧
    (r = none → mt2.staged = mt.staged ++ codeWrites kv k acc) := by
  unfold copyCode at h
  simp only [mtPut_eq] at h
  unfold codeWrites codeHashPointer
  cases hget : kv.Get .PlainContractCodeBucket (PlainGenerateStoragePrefix k acc.Incarnation) with
  | error err =>
    rw [hget] at h
    by_cases hnf : err = GoError.ErrKeyNotFound
    · simp only [hnf, if_true] at h
      cases hput : env.Put .PlainContractCodeBucket
          (PlainGenerateStoragePrefix k acc.Incarnation) [] with
      | some e =>
        rw [hput] at h
        simp only [Prod.mk.injEq] at h
        obtain ⟨h1, h2⟩ := h
        subst h1 h2
        simp
      | none =>
        rw [hput] at h
        simp only [List.length_nil, gt_iff_lt, lt_self_iff_false, if_false, Prod.mk.injEq] at h
        obtain ⟨h1, h2⟩ := h
        subst h1 h2
        simp
    · simp only [hnf, if_false, Prod.mk.injEq] at h
      obtain ⟨h1, h2⟩ := h
      subst h1 h2
      simp
  | ok codeHash =>
    rw [hget] at h
    simp only at h
    cases hput : env.Put .PlainContractCodeBucket
        (PlainGenerateStoragePrefix k acc.Incarnation) codeHash with
    | some e =>
      rw [hput] at h
      simp only [Prod.mk.injEq] at h
      obtain ⟨h1, h2⟩ := h
      subst h1 h2
      simp
    | none =>
      rw [hput] at h
      simp only at h
      by_cases hlen : codeHash.length > 0
      · simp only [hlen, if_true] at h ⊢
        cases hcode : kv.Get .CodeBucket codeHash with
        | error err =>
          rw [hcode] at h
          simp only [Prod.mk.injEq] at h
          obtain ⟨h1, h2⟩ := h
          subst h1 h2
          simp
        | ok code =>
          rw [hcode] at h
          simp only at h
          cases hput2 : env.Put .CodeBucket codeHash code with
          | some e =>
            rw [hput2] at h
            simp only [Prod.mk.injEq] at h
            obtain ⟨h1, h2⟩ := h
            subst h1 h2
            simp
          | none =>
            rw [hput2] at h
            simp only [Prod.mk.injEq] at h
            obtain ⟨h1, h2⟩ := h
            subst h1 h2
            simp
      · simp only [hlen, if_false, Prod.mk.injEq] at h ⊢
        obtain ⟨h1, h2⟩ := h
        subst h1 h2
        simp

theorem stageAccount_cases (env : Env) (k : Bytes) (acc : Account) (mt : Batch) :
    (∃ e, env.Put .PlainStateBucket (CopyBytes k) (env.EncodeForStorage acc) = some e ∧
      stageAccount env k acc mt = (mt, .ret false (some e))) ∨
    (∃ e, env.Put .PlainStateBucket (CopyBytes k) (env.EncodeForStorage acc) = none ∧
      env.IdealBatchSize ≤ env.BatchSize
        (mt.staged ++ [⟨.PlainStateBucket, CopyBytes k, env.EncodeForStorage acc⟩]) ∧
      env.CommitAndBegin
        (mt.staged ++ [⟨.PlainStateBucket, CopyBytes k, env.EncodeForStorage acc⟩]) = some e ∧
      stageAccount env k acc mt =
        (⟨mt.staged ++ [⟨.PlainStateBucket, CopyBytes k, env.EncodeForStorage acc⟩],
          mt.committed⟩, .ret false (some e))) ∨
    (env.Put .PlainStateBucket (CopyBytes k) (env.EncodeForStorage acc) = none ∧
      env.BatchSize
        (mt.staged ++ [⟨.PlainStateBucket, CopyBytes k, env.EncodeForStorage acc⟩])
        < env.IdealBatchSize ∧
      stageAccount env k acc mt =
        (⟨mt.staged ++ [⟨.PlainStateBucket, CopyBytes k, env.EncodeForStorage acc⟩],
          mt.committed⟩, .ret true none)) ∨
    (env.Put .PlainStateBucket (CopyBytes k) (env.EncodeForStorage acc) = none ∧
      env.IdealBatchSize ≤ env.BatchSize
        (mt.staged ++ [⟨.PlainStateBucket, CopyBytes k, env.EncodeForStorage acc⟩]) ∧
      env.CommitAndBegin
        (mt.staged ++ [⟨.PlainStateBucket, CopyBytes k, env.EncodeForStorage acc⟩]) = none ∧
      stageAccount env k acc mt =
        (⟨[], mt.committed ++
          [mt.staged ++ [⟨.PlainStateBucket, CopyBytes k, env.EncodeForStorage acc⟩]]⟩,
          .ret true none)) := by
  cases hput : env.Put .PlainStateBucket (CopyBytes k) (env.EncodeForStorage acc) with
  | some e =>
    left
    exact ⟨e, rfl, by simp [stageAccount, mtPut, hput]⟩
  | none =>
    right
    by_cases hsize : env.IdealBatchSize ≤ env.BatchSize
        (mt.staged ++ [⟨.PlainStateBucket, CopyBytes k, env.EncodeForStorage acc⟩])
    · cases hcommit : env.CommitAndBegin
          (mt.staged ++ [⟨.PlainStateBucket, CopyBytes k, env.EncodeForStorage acc⟩]) with
      | some e =>
        left
        exact ⟨e, rfl, hsize, rfl, by
          simp [stageAccount, mtPut, hput, hsize, mtCommitAndBegin, hcommit]⟩
      | none =>
        right; right
        exact ⟨rfl, hsize, rfl, by
          simp [stageAccount, mtPut, hput, hsize, mtCommitAndBegin, hcommit]⟩
    · right; left
      exact ⟨rfl, Nat.lt_of_not_le hsize, by simp [stageAccount, mtPut, hput, hsize]⟩

theorem processStorage_cases (env : Env) (kv : KV) (toBlock : Nat) (k : Bytes)
    (acc : Account) (mt : Batch) :
    (∃ mt1 r, processStorage env kv toBlock k acc mt = (mt1, .error r) ∧
      mt1.committed = mt.committed ∧ (r = .runtimePanic ∨ ∃ e, r = .ret false (some e))) ∨
    processStorage env kv toBlock k acc mt =
      (⟨mt.staged ++ ((storageEntries kv toBlock k acc).map (storageWrite acc)
          ++ codeWrites kv k acc), mt.committed⟩,
        .ok { acc with Root := storageRoot env kv toBlock k acc }) := by
  unfold processStorage
  rcases hw : walkEntries (innerVisitor env acc) (storageEntries kv toBlock k acc)
    (mt, env.trieNew) with ⟨⟨mt1, t⟩, st⟩
  obtain ⟨hc, hs, hok⟩ := innerWalk_spec env acc _ _ _ _ _ _ hw
  cases st with
  | panicked => left; exact ⟨mt1, _, rfl, hc, Or.inl rfl⟩
  | failed e => left; exact ⟨mt1, _, rfl, hc, Or.inr ⟨e, rfl⟩⟩
  | stopped => exact absurd rfl hs
  | completed =>
    obtain ⟨h1, h2⟩ := hok rfl
    simp only
    rcases hcc : copyCode env kv k acc mt1 with ⟨mt2, r⟩
    obtain ⟨hc2, hok2⟩ := copyCode_spec env kv k acc mt1 mt2 r hcc
    cases r with
    | some e => left; exact ⟨mt2, _, rfl, hc2.trans hc, Or.inr ⟨e, rfl⟩⟩
    | none =>
      right
      have h3 := hok2 rfl
      simp only [storageRoot, ← h2]
      congr 1
      cases mt2
      simp only [Batch.mk.injEq]
      simp only at h3 hc2
      rw [h3, h1, hc2, hc, List.append_assoc]
      exact ⟨rfl, rfl⟩

theorem outerVisitor_cases (env : Env) (kv : KV) (toBlock : Nat) (s : RunState)
    (k v : Bytes) :
    (∃ mt1 r, outerVisitor env kv toBlock s k v = (⟨s.i + 1, mt1⟩, r) ∧
      mt1.committed = s.mt.committed ∧ (r = .runtimePanic ∨ ∃ e, r = .ret false (some e))) ∨
    (k.length ≠ 20 ∧ outerVisitor env kv toBlock s k v = (⟨s.i + 1, s.mt⟩, .ret true none)) ∨
    (∃ acc, k.length = 20 ∧ env.DecodeForStorage v = .ok acc ∧
      env.BatchSize (s.mt.staged ++ accountGroup env kv toBlock k acc) < env.IdealBatchSize ∧
      outerVisitor env kv toBlock s k v =
        (⟨s.i + 1, ⟨s.mt.staged ++ accountGroup env kv toBlock k acc, s.mt.committed⟩⟩,
          .ret true none)) ∨
    (∃ acc, k.length = 20 ∧ env.DecodeForStorage v = .ok acc ∧
      env.IdealBatchSize ≤ env.BatchSize (s.mt.staged ++ accountGroup env kv toBlock k acc) ∧
      outerVisitor env kv toBlock s k v =
        (⟨s.i + 1, ⟨[], s.mt.committed ++ [s.mt.staged ++ accountGroup env kv toBlock k acc]⟩⟩,
          .ret true none)) := by
  unfold outerVisitor
  by_cases hint : (s.i + 1) % 10000 = 0 ∧ env.interrupted (s.i + 1) = true
  · left
    exact ⟨s.mt, _, by rw [if_pos hint], rfl, Or.inr ⟨_, rfl⟩⟩
  rw [if_neg hint]
  by_cases hlen : k.length ≠ 20
  · right; left
    exact ⟨hlen, by rw [if_pos hlen]⟩
  rw [if_neg hlen]
  have hlen20 : k.length = 20 := not_not.mp hlen
  cases hdec : env.DecodeForStorage v with
  | error err =>
    left
    exact ⟨s.mt, _, rfl, rfl, Or.inr ⟨_, rfl⟩⟩
  | ok acc =>
    simp only
    by_cases hinc : acc.Incarnation > 0
    · rw [if_pos hinc]
      rcases processStorage_cases env kv toBlock k acc s.mt with ⟨mt1, r, hp, hc, hr⟩ | hp
      · left
        rw [hp]
        exact ⟨mt1, r, rfl, hc, hr⟩
      · rw [hp]
        have hg : accountGroup env kv toBlock k acc =
            (storageEntries kv toBlock k acc).map (storageWrite acc) ++ codeWrites kv k acc
              ++ [⟨.PlainStateBucket, CopyBytes k,
                env.EncodeForStorage { acc with Root := storageRoot env kv toBlock k acc }⟩] := by
          simp [accountGroup, accountWrite, patchedAccount, hinc]
        rcases stageAccount_cases env k { acc with Root := storageRoot env kv toBlock k acc }
          ⟨s.mt.staged ++ ((storageEntries kv toBlock k acc).map (storageWrite acc)
            ++ codeWrites kv k acc), s.mt.committed⟩
          with ⟨e, _, hs⟩ | ⟨e, _, _, _, hs⟩ | ⟨_, hsz, hs⟩ | ⟨_, hsz, _, hs⟩
        · left
          simp only [hs]
          exact ⟨_, _, rfl, rfl, Or.inr ⟨e, rfl⟩⟩
        · left
          simp only [hs]
          exact ⟨_, _, rfl, rfl, Or.inr ⟨e, rfl⟩⟩
        · right; right; left
          simp only [hs]
          refine ⟨acc, hlen20, rfl, ?_, ?_⟩
          · rw [hg]; simpa [List.append_assoc] using hsz
          · rw [hg]; simp [List.append_assoc]
        · right; right; right
          simp only [hs]
          refine ⟨acc, hlen20, rfl, ?_, ?_⟩
          · rw [hg]; simpa [List.append_assoc] using hsz
          · rw [hg]; simp [List.append_assoc]
    · rw [if_neg hinc]
      have hg : accountGroup env kv toBlock k acc =
          [⟨.PlainStateBucket, CopyBytes k, env.EncodeForStorage acc⟩] := by
        simp [accountGroup, accountWrite, patchedAccount, hinc]
      rcases stageAccount_cases env k acc s.mt
        with ⟨e, _, hs⟩ | ⟨e, _, _, _, hs⟩ | ⟨_, hsz, hs⟩ | ⟨_, hsz, _, hs⟩
      · left
        simp only [hs]
        exact ⟨_, _, rfl, rfl, Or.inr ⟨e, rfl⟩⟩
      · left
        simp only [hs]
        exact ⟨_, _, rfl, rfl, Or.inr ⟨e, rfl⟩⟩
      · right; right; left
        simp only [hs]
        refine ⟨acc, hlen20, rfl, ?_, ?_⟩
        · rw [hg]; exact hsz
        · rw [hg]
      · right; right; right
        simp only [hs]
        refine ⟨acc, hlen20, rfl, ?_, ?_⟩
        · rw [hg]; exact hsz
        · rw [hg]

/-! ## Lemmas on the whole run -/

theorem GenerateStateSnapshot_started (env : Env) (dbPath snapshotPath : String)
    (toBlock : Nat) (snapshotDir snapshotMode : String) (kv : KV) (events : List Event)
    (hstart : Started env dbPath snapshotPath snapshotDir snapshotMode kv events) :
    GenerateStateSnapshot env dbPath snapshotPath toBlock snapshotDir snapshotMode
      = walkAndCommit env kv toBlock events := by
  obtain ⟨hpath, hrm, kv0, ev, hopen, hwrap, hsnap, hb0, hb1, hev⟩ := hstart
  subst hev
  simp [GenerateStateSnapshot, hpath, hrm, hopen, hwrap, hsnap, hb0, hb1]

theorem outerVisitor_counter (env : Env) (kv : KV) (toBlock : Nat) (s : RunState)
    (k v : Bytes) : (outerVisitor env kv toBlock s k v).1.i = s.i + 1 := by
  rcases outerVisitor_cases env kv toBlock s k v with
    ⟨mt1, r, h, _⟩ | ⟨_, h⟩ | ⟨acc, _, _, _, h⟩ | ⟨acc, _, _, _, h⟩ <;> rw [h]

theorem walk_counter (env : Env) (kv : KV) (toBlock : Nat) :
    ∀ (es : List (Bytes × Bytes)) (s s1 : RunState),
      walkEntries (outerVisitor env kv toBlock) es s = (s1, .completed) →
      s1.i = s.i + es.length := by
  intro es
  induction es with
  | nil =>
    intro s s1 h
    simp only [walkEntries, Prod.mk.injEq, and_true] at h
    simp [h]
  | cons e rest ih =>
    intro s s1 h
    obtain ⟨k, v⟩ := e
    simp only [walkEntries] at h
    have hc := outerVisitor_counter env kv toBlock s k v
    rcases hv : outerVisitor env kv toBlock s k v with ⟨s2, r⟩
    rw [hv] at h hc
    rcases r with ⟨goOn, err⟩ | _
    · cases err with
      | some e => simp at h
      | none =>
        cases goOn with
        | false => simp at h
        | true =>
          simp only at h hc
          rw [ih s2 s1 h, hc, List.length_cons]
          omega
    · simp at h

theorem outerVisitor_of_visitError (env : Env) (kv : KV) (toBlock : Nat) (s : RunState)
    (k v : Bytes) (mt2 : Batch) (e : GoError)
    (hpoll : ¬((s.i + 1) % 10000 = 0 ∧ env.interrupted (s.i + 1) = true))
    (hk : k.length = 20)
    (herr : VisitError env kv toBlock s.mt k v mt2 e) :
    outerVisitor env kv toBlock s k v = (⟨s.i + 1, mt2⟩, .ret false (some e)) := by
  unfold outerVisitor
  rw [if_neg hpoll, if_neg (by simp [hk])]
  cases herr with
  | decode err hdec => simp [hdec]
  | storageWalk acc mt1 t e hdec hinc hwalk =>
    simp [hdec, hinc, processStorage, hwalk]
  | codeHashLookup acc mt1 t err hdec hinc hwalk hget hne =>
    simp [hdec, hinc, processStorage, hwalk, copyCode, hget, hne]
  | codeHashPut acc mt1 t e hdec hinc hwalk hptr hput =>
    have hcc : copyCode env kv k acc mt2 = (mt2, some e) := by
      unfold copyCode
      unfold codeHashPointer at hput
      cases hget : kv.Get .PlainContractCodeBucket
          (PlainGenerateStoragePrefix k acc.Incarnation) with
      | error err =>
        rw [hget] at hput
        simp [hptr err hget, mtPut, hput]
      | ok codeHash =>
        rw [hget] at hput
        simp [mtPut, hput]
    simp [hdec, hinc, processStorage, hwalk, hcc]
  | codeLookup acc mt1 t e hdec hinc hwalk hptr hput hlen hcode =>
    have hcc : copyCode env kv k acc mt1 =
        (⟨mt1.staged ++ [⟨.PlainContractCodeBucket,
          PlainGenerateStoragePrefix k acc.Incarnation, codeHashPointer kv k acc⟩],
          mt1.committed⟩, some e) := by
      unfold copyCode
      unfold codeHashPointer at hput hlen hcode ⊢
      cases hget : kv.Get .PlainContractCodeBucket
          (PlainGenerateStoragePrefix k acc.Incarnation) with
      | error err =>
        rw [hget] at hput hlen hcode
        simp at hlen
      | ok codeHash =>
        rw [hget] at hput hlen hcode
        simp only at hput hlen hcode
        simp [mtPut, hput, hlen, hcode]
    simp [hdec, hinc, processStorage, hwalk, hcc]
  | codePut acc mt1 t code e hdec hinc hwalk hptr hput hlen hcode hput2 =>
    have hcc : copyCode env kv k acc mt1 =
        (⟨mt1.staged ++ [⟨.PlainContractCodeBucket,
          PlainGenerateStoragePrefix k acc.Incarnation, codeHashPointer kv k acc⟩],
          mt1.committed⟩, some e) := by
      unfold copyCode
      unfold codeHashPointer at hput hlen hcode hput2 ⊢
      cases hget : kv.Get .PlainContractCodeBucket
          (PlainGenerateStoragePrefix k acc.Incarnation) with
      | error err =>
        rw [hget] at hput hlen hcode
        simp at hlen
      | ok codeHash =>
        rw [hget] at hput hlen hcode hput2
        simp only at hput hlen hcode hput2
        simp [mtPut, hput, hlen, hcode, hput2]
    simp [hdec, hinc, processStorage, hwalk, hcc]
  | accountPut acc mt1 acc1 e hdec hbefore hput =>
    rcases hbefore with ⟨hinc, hps⟩ | ⟨hinc, h1, h2⟩
    · simp [hdec, hinc, hps, stageAccount, mtPut, hput]
    · subst h1 h2
      simp [hdec, hinc, stageAccount, mtPut, hput]
  | flush acc mt1 acc1 e hdec hbefore hput hsize hflush =>
    rcases hbefore with ⟨hinc, hps⟩ | ⟨hinc, h1, h2⟩
    · simp [hdec, hinc, hps, stageAccount, mtPut, hput, hsize, mtCommitAndBegin, hflush]
    · subst h1 h2
      simp [hdec, hinc, stageAccount, mtPut, hput, hsize, mtCommitAndBegin, hflush]

/-! ## Theorems -/

/-- C8: with an empty `snapshotPath` the procedure returns the error
"empty snapshot path" whatever the other arguments are, having performed no
effect at all: nothing removed, no store opened, no transaction begun, and
no write staged or committed. -/
theorem GenerateStateSnapshot_empty_snapshot_path (env : Env) (dbPath : String)
    (toBlock : Nat) (snapshotDir snapshotMode : String) :
    GenerateStateSnapshot env dbPath "" toBlock snapshotDir snapshotMode
      = ⟨[], ⟨[], []⟩, .returned (some (.New "empty snapshot path"))⟩ := by
  simp [GenerateStateSnapshot]

/-- C10 (evaluation at the failing input): when the first `kv.Begin` succeeds and
the second fails, the procedure returns the error of the second and the
primary read transaction, opened by then, is not rolled back. -/
theorem GenerateStateSnapshot_second_begin_fails_no_rollback :
    GenerateStateSnapshot (demoEnv (demoKV [] []) (some (.New "begin failed")) (fun _ => false))
        "db" "snap" 5 "" ""
      = ⟨[.RemoveAll "snap", .OpenSource "db", .OpenSnapshot "snap", .Begin 0],
          ⟨[], []⟩, .returned (some (.New "begin failed"))⟩ := by
  decide

/-- C2 (evaluation at the failing input): for the target block `2 ^ 64 - 1` the
bound `toBlock+1` wraps to `0`, below the target; an account changed exactly
at the target block is then not part of the walk and nothing is written. -/
theorem GenerateStateSnapshot_bound_wraps_at_max_block :
    asOfBound (2 ^ 64 - 1) = 0 ∧
    accountEntries
      (demoKV [⟨.PlainStateBucket, demoAddress, [(2 ^ 64 - 1, some [1, 5, 0])]⟩] [])
      (2 ^ 64 - 1) = [] ∧
    GenerateStateSnapshot
        (demoEnv (demoKV [⟨.PlainStateBucket, demoAddress, [(2 ^ 64 - 1, some [1, 5, 0])]⟩] [])
          none (fun _ => false))
        "db" "snap" (2 ^ 64 - 1) "" ""
      = ⟨[.RemoveAll "snap", .OpenSource "db", .OpenSnapshot "snap", .Begin 0, .Begin 1,
          .Rollback 0], ⟨[], [[]]⟩, .returned none⟩ := by
  decide

/-- C9: when, at a visited account `(k, v)`, decoding the account, the inner
storage walk, a code lookup, a staging write or the flush returns an error
(`VisitError`, one case per error return of the source), the visitor returns
that error with a false continue flag, the outer walk ends there after exactly
one more visit than the entries before it (whatever entries follow), nothing
is committed by or after the failing visit, and the procedure returns that
error; for a decode failure the error message is
"decoding <hex of v> for <hex of k>: <cause>". -/
theorem GenerateStateSnapshot_stops_at_first_error (env : Env)
    (dbPath snapshotPath : String) (toBlock : Nat) (snapshotDir snapshotMode : String)
    (kv : KV) (events : List Event) (pre post : List (Bytes × Bytes)) (k v : Bytes)
    (s1 : RunState) (mt2 : Batch) (e : GoError)
    (hstart : Started env dbPath snapshotPath snapshotDir snapshotMode kv events)
    (hentries : accountEntries kv toBlock = pre ++ (k, v) :: post)
    (hpre : walkEntries (outerVisitor env kv toBlock) pre ⟨0, ⟨[], []⟩⟩ = (s1, .completed))
    (hpoll : ¬((s1.i + 1) % 10000 = 0 ∧ env.interrupted (s1.i + 1) = true))
    (hk : k.length = 20)
    (herr : VisitError env kv toBlock s1.mt k v mt2 e) :
    outerVisitor env kv toBlock s1 k v = (⟨pre.length + 1, mt2⟩, .ret false (some e)) ∧
    walkEntries (outerVisitor env kv toBlock) (accountEntries kv toBlock) ⟨0, ⟨[], []⟩⟩
      = (⟨pre.length + 1, mt2⟩, .failed e) ∧
    GenerateStateSnapshot env dbPath snapshotPath toBlock snapshotDir snapshotMode
      = ⟨events ++ [.Rollback 0], mt2, .returned (some e)⟩ ∧
    mt2.committed = s1.mt.committed ∧
    (∀ err, env.DecodeForStorage v = .error err →
      e = .New ("decoding " ++ Bytes2Hex v ++ " for " ++ Bytes2Hex k ++ ": " ++ err.Error)) := by
  have hcount : s1.i = pre.length := by
    have := walk_counter env kv toBlock pre _ s1 hpre
    simpa using this
  have hvisit := outerVisitor_of_visitError env kv toBlock s1 k v mt2 e hpoll hk herr
  rw [hcount] at hvisit
  have hwalk := walkEntries_failed_at (outerVisitor env kv toBlock) pre post k v _ s1 _ _ e
    hpre hvisit
  rw [← hentries] at hwalk
  refine ⟨hvisit, hwalk, ?_, ?_, ?_⟩
  · rw [GenerateStateSnapshot_started env dbPath snapshotPath toBlock snapshotDir
      snapshotMode kv events hstart]
    simp [walkAndCommit, hwalk]
  · rcases outerVisitor_cases env kv toBlock s1 k v with
      ⟨mt1, r, h, hc, _⟩ | ⟨_, h⟩ | ⟨acc, _, _, _, h⟩ | ⟨acc, _, _, _, h⟩
    · rw [h] at hvisit
      simp only [Prod.mk.injEq, RunState.mk.injEq] at hvisit
      rw [← hvisit.1.2]
      exact hc
    · rw [h] at hvisit; simp at hvisit
    · rw [h] at hvisit; simp at hvisit
    · rw [h] at hvisit; simp at hvisit
  · intro err hdec
    cases herr with
    | decode err1 hdec1 =>
      rw [hdec] at hdec1
      cases hdec1
      rfl
    | storageWalk acc mt1 t e hdec1 => rw [hdec] at hdec1; cases hdec1
    | codeHashLookup acc mt1 t err1 hdec1 => rw [hdec] at hdec1; cases hdec1
    | codeHashPut acc mt1 t e hdec1 => rw [hdec] at hdec1; cases hdec1
    | codeLookup acc mt1 t e hdec1 => rw [hdec] at hdec1; cases hdec1
    | codePut acc mt1 t code e hdec1 => rw [hdec] at hdec1; cases hdec1
    | accountPut acc mt1 acc1 e hdec1 => rw [hdec] at hdec1; cases hdec1
    | flush acc mt1 acc1 e hdec1 => rw [hdec] at hdec1; cases hdec1

/-- C9, at a concrete input: the first account cannot be decoded, the run
returns the decode error naming value and key, and the account that follows
is never staged. -/
theorem GenerateStateSnapshot_stops_at_first_error_witness :
    GenerateStateSnapshot (demoEnv undecodableKV none (fun _ => false)) "db" "snap" 5 "" ""
      = ⟨[.RemoveAll "snap", .OpenSource "db", .OpenSnapshot "snap", .Begin 0, .Begin 1,
            .Rollback 0],
          ⟨[], []⟩,
          .returned (some (.New
            "decoding  for aaaaaaaaaaaaaaaaaaaaaaaaaaaaaaaaaaaaaaaa: short account"))⟩ :=
  (GenerateStateSnapshot_stops_at_first_error (demoEnv undecodableKV none (fun _ => false))
    "db" "snap" 5 "" "" undecodableKV
    [.RemoveAll "snap", .OpenSource "db", .OpenSnapshot "snap", .Begin 0, .Begin 1]
    [] [(List.replicate 20 187, [1, 5, 0])] demoAddress [] ⟨0, ⟨[], []⟩⟩ ⟨[], []⟩
    (.New "decoding  for aaaaaaaaaaaaaaaaaaaaaaaaaaaaaaaaaaaaaaaa: short account")
    ⟨by decide, rfl, undecodableKV, [], rfl, rfl, rfl, rfl, rfl, rfl⟩
    (by decide) rfl (by decide) (by decide)
    (VisitError.decode (.New "short account") rfl)).2.2.1

/-! ### Cancellation -/

theorem walk_skipped (env : Env) (kv : KV) (toBlock : Nat) :
    ∀ (es : List (Bytes × Bytes)) (s : RunState),
      (∀ e ∈ es, e.1.length ≠ 20) →
      (∀ j, s.i < j → j ≤ s.i + es.length → j % 10000 ≠ 0) →
      walkEntries (outerVisitor env kv toBlock) es s
        = (⟨s.i + es.length, s.mt⟩, .completed) := by
  intro es
  induction es with
  | nil => intro s _ _; simp [walkEntries]
  | cons e rest ih =>
    intro s hlen hpoll
    obtain ⟨k, v⟩ := e
    have hk : k.length ≠ 20 := hlen (k, v) (List.mem_cons_self _ _)
    have hp : (s.i + 1) % 10000 ≠ 0 :=
      hpoll (s.i + 1) (by omega) (by simp only [List.length_cons]; omega)
    have hv : outerVisitor env kv toBlock s k v = (⟨s.i + 1, s.mt⟩, .ret true none) := by
      simp [outerVisitor, hp, hk]
    simp only [walkEntries, hv]
    rw [ih ⟨s.i + 1, s.mt⟩ (fun e he => hlen e (List.mem_cons_of_mem _ he))
      (fun j h1 h2 => hpoll j (by simp only at h1; omega)
        (by simp only [List.length_cons] at h2 ⊢; omega))]
    simp only [List.length_cons]
    congr 2
    omega

theorem storagePairsFrom_succ : ∀ (n start : Nat),
    storagePairsFrom start (n + 1)
      = storagePairsFrom start n ++ [(storageRowKey (start + n), [7])] := by
  intro n
  induction n with
  | zero => intro start; simp [storagePairsFrom]
  | succ n ih =>
    intro start
    have harith : start + 1 + n = start + (n + 1) := by omega
    rw [storagePairsFrom, ih (start + 1), harith]
    rfl

theorem length_storagePairsFrom : ∀ (n start : Nat),
    (storagePairsFrom start n).length = n := by
  intro n
  induction n with
  | zero => intro start; rfl
  | succ n ih => intro start; rw [storagePairsFrom, List.length_cons, ih]

theorem length_key_of_mem_storagePairsFrom : ∀ (n start : Nat) (e : Bytes × Bytes),
    e ∈ storagePairsFrom start n → e.1.length ≠ 20 := by
  intro n
  induction n with
  | zero => intro start e he; simp [storagePairsFrom] at he
  | succ n ih =>
    intro start e he
    rw [storagePairsFrom, List.mem_cons] at he
    rcases he with rfl | he
    · simp [storageRowKey, PutUint64]
    · exact ih _ e he

theorem view_storageRowsFrom (timestamp : Nat) (h : 0 < timestamp) : ∀ (n start : Nat),
    List.filterMap (fun e : VersionedEntry =>
      if e.bucket = Bucket.PlainStateBucket ∧ matchesFixedBits [] 0 e.key = true then
        (valueAsOf e.changes timestamp).map fun v => (e.key, v)
      else none) (storageRowsFrom start n) = storagePairsFrom start n := by
  intro n
  induction n with
  | zero => intro start; rfl
  | succ n ih =>
    intro start
    rw [storageRowsFrom, storagePairsFrom, List.filterMap_cons, ih]
    simp [storageRow, matchesFixedBits, valueAsOf, h]

theorem accountEntries_interruptedKV :
    accountEntries interruptedKV 5 =
      ((zeroAddress, [1, 5, 0]) :: storagePairsFrom 0 9998)
        ++ (storageRowKey 9998, [7]) :: [] := by
  have hsplit : storagePairsFrom 0 9999
      = storagePairsFrom 0 9998 ++ [(storageRowKey 9998, [7])] :=
    storagePairsFrom_succ 9998 0
  rw [List.cons_append, ← hsplit]
  unfold accountEntries asOfView interruptedKV demoKV
  rw [List.filterMap_cons, view_storageRowsFrom (asOfBound 5) (by decide) 9999 0]
  rfl

theorem walk_interruptedKV_before_poll (interrupted : Nat → Bool) :
    walkEntries (outerVisitor (demoEnv interruptedKV none interrupted) interruptedKV 5)
        ((zeroAddress, [1, 5, 0]) :: storagePairsFrom 0 9998) ⟨0, ⟨[], []⟩⟩
      = (⟨9999, ⟨[⟨.PlainStateBucket, zeroAddress, [1, 5, 0]⟩], []⟩⟩, .completed) := by
  have hv : outerVisitor (demoEnv interruptedKV none interrupted) interruptedKV 5
      ⟨0, ⟨[], []⟩⟩ zeroAddress [1, 5, 0]
        = (⟨1, ⟨[⟨.PlainStateBucket, zeroAddress, [1, 5, 0]⟩], []⟩⟩, .ret true none) := rfl
  rw [walkEntries, hv]
  simp only []
  rw [walk_skipped _ _ _ _ ⟨1, ⟨[⟨.PlainStateBucket, zeroAddress, [1, 5, 0]⟩], []⟩⟩
    (length_key_of_mem_storagePairsFrom 9998 0)]
  · rw [length_storagePairsFrom]
  · intro j h1 h2
    rw [length_storagePairsFrom] at h2
    simp only at h1 h2
    omega

/-- C1 (counterexample): the interrupt is observed at the 10000th visit, after
an account record has been staged; the procedure returns "interrupted" and the
staged record is still only staged: no batch at all has been committed. -/
theorem GenerateStateSnapshot_interrupted_discards_staged :
    (GenerateStateSnapshot (demoEnv interruptedKV none (fun _ => true))
        "db" "snap" 5 "" "").outcome = .returned (some (.New "interrupted")) ∧
    (GenerateStateSnapshot (demoEnv interruptedKV none (fun _ => true))
        "db" "snap" 5 "" "").mt.staged = [⟨.PlainStateBucket, zeroAddress, [1, 5, 0]⟩] ∧
    (GenerateStateSnapshot (demoEnv interruptedKV none (fun _ => true))
        "db" "snap" 5 "" "").mt.committed = [] := by
  have hstart : Started (demoEnv interruptedKV none (fun _ => true)) "db" "snap" "" ""
      interruptedKV
      [.RemoveAll "snap", .OpenSource "db", .OpenSnapshot "snap", .Begin 0, .Begin 1] :=
    ⟨by decide, rfl, interruptedKV, [], rfl, rfl, rfl, rfl, rfl, rfl⟩
  have hvisit : outerVisitor (demoEnv interruptedKV none (fun _ => true)) interruptedKV 5
      ⟨9999, ⟨[⟨.PlainStateBucket, zeroAddress, [1, 5, 0]⟩], []⟩⟩ (storageRowKey 9998) [7]
        = (⟨10000, ⟨[⟨.PlainStateBucket, zeroAddress, [1, 5, 0]⟩], []⟩⟩,
            .ret false (some (.New "interrupted"))) := rfl
  have hwalk := walkEntries_failed_at
    (outerVisitor (demoEnv interruptedKV none (fun _ => true)) interruptedKV 5)
    ((zeroAddress, [1, 5, 0]) :: storagePairsFrom 0 9998) [] (storageRowKey 9998) [7]
    ⟨0, ⟨[], []⟩⟩ ⟨9999, ⟨[⟨.PlainStateBucket, zeroAddress, [1, 5, 0]⟩], []⟩⟩
    ⟨10000, ⟨[⟨.PlainStateBucket, zeroAddress, [1, 5, 0]⟩], []⟩⟩ false (.New "interrupted")
    (walk_interruptedKV_before_poll (fun _ => true)) hvisit
  rw [← accountEntries_interruptedKV] at hwalk
  rw [GenerateStateSnapshot_started _ _ _ _ _ _ _ _ hstart, walkAndCommit, hwalk]
  exact ⟨rfl, rfl, rfl⟩

/-- C1 (amended): when the signal is observed at a poll of the outer visitor
(the visit counter reaches a multiple of 10000 with an interrupt pending), the
procedure returns the error "interrupted" without a final commit: the batch is
left exactly as it was before that visit, so the writes staged since the last
flush stay staged and only the batches flushed earlier are committed. -/
theorem GenerateStateSnapshot_interrupted_no_final_commit (env : Env)
    (dbPath snapshotPath : String) (toBlock : Nat) (snapshotDir snapshotMode : String)
    (kv : KV) (events : List Event) (pre post : List (Bytes × Bytes)) (k v : Bytes)
    (s1 : RunState)
    (hstart : Started env dbPath snapshotPath snapshotDir snapshotMode kv events)
    (hentries : accountEntries kv toBlock = pre ++ (k, v) :: post)
    (hpre : walkEntries (outerVisitor env kv toBlock) pre ⟨0, ⟨[], []⟩⟩ = (s1, .completed))
    (hpoll : (s1.i + 1) % 10000 = 0) (hsignal : env.interrupted (s1.i + 1) = true) :
    GenerateStateSnapshot env dbPath snapshotPath toBlock snapshotDir snapshotMode
      = ⟨events ++ [.Rollback 0], s1.mt, .returned (some (.New "interrupted"))⟩ := by
  have hvisit : outerVisitor env kv toBlock s1 k v
      = (⟨s1.i + 1, s1.mt⟩, .ret false (some (.New "interrupted"))) := by
    simp [outerVisitor, hpoll, hsignal]
  have hwalk := walkEntries_failed_at (outerVisitor env kv toBlock) pre post k v _ s1 _ _ _
    hpre hvisit
  rw [← hentries] at hwalk
  rw [GenerateStateSnapshot_started env dbPath snapshotPath toBlock snapshotDir
    snapshotMode kv events hstart, walkAndCommit, hwalk]

/-- C1 (amended), at a concrete input: one account is staged, the interrupt is
seen at the 10000th visit, and the run ends with that record staged and
nothing committed. -/
theorem GenerateStateSnapshot_interrupted_no_final_commit_witness :
    GenerateStateSnapshot (demoEnv interruptedKV none (fun i => decide (i = 10000)))
        "db" "snap" 5 "" ""
      = ⟨[.RemoveAll "snap", .OpenSource "db", .OpenSnapshot "snap", .Begin 0, .Begin 1,
            .Rollback 0],
          ⟨[⟨.PlainStateBucket, zeroAddress, [1, 5, 0]⟩], []⟩,
          .returned (some (.New "interrupted"))⟩ :=
  GenerateStateSnapshot_interrupted_no_final_commit
    (demoEnv interruptedKV none (fun i => decide (i = 10000))) "db" "snap" 5 "" ""
    interruptedKV
    [.RemoveAll "snap", .OpenSource "db", .OpenSnapshot "snap", .Begin 0, .Begin 1]
    ((zeroAddress, [1, 5, 0]) :: storagePairsFrom 0 9998) []
    (storageRowKey 9998) [7]
    ⟨9999, ⟨[⟨.PlainStateBucket, zeroAddress, [1, 5, 0]⟩], []⟩⟩
    ⟨by decide, rfl, interruptedKV, [], rfl, rfl, rfl, rfl, rfl, rfl⟩
    accountEntries_interruptedKV
    (walk_interruptedKV_before_poll _)
    (by decide) (by decide)

/-! ### Keys -/

theorem length_copyInto (n : Nat) (src : Bytes) : (copyInto n src).length = n := by
  simp only [copyInto, List.length_append, List.length_take, List.length_replicate]
  omega

theorem copyInto_of_length (n : Nat) (src : Bytes) (h : src.length = n) :
    copyInto n src = src := by
  simp [copyInto, h]

theorem length_setBytes (n : Nat) (b : Bytes) : (setBytes n b).length = n := by
  simp only [setBytes, List.length_append, List.length_replicate, List.length_drop]
  omega

theorem setBytes_of_length (n : Nat) (b : Bytes) (h : b.length = n) : setBytes n b = b := by
  simp [setBytes, h]

theorem length_PutUint64 (n : Nat) : (PutUint64 n).length = 8 := rfl

theorem Uint64_PutUint64 (n : Nat) (h : n < 2 ^ 64) (rest : Bytes) :
    Uint64 (PutUint64 n ++ rest) = n := by
  simp only [Uint64, PutUint64, List.cons_append, List.nil_append, List.take_succ_cons,
    List.take_zero, List.foldl_cons, List.foldl_nil]
  norm_num at h ⊢
  omega

theorem length_PlainGenerateStoragePrefix (k : Bytes) (n : Nat) :
    (PlainGenerateStoragePrefix k n).length = 28 := by
  simp [PlainGenerateStoragePrefix, length_copyInto, length_PutUint64, AddressLength]

theorem length_PlainGenerateCompositeStorageKey (a : Bytes) (n : Nat) (key : Bytes) :
    (PlainGenerateCompositeStorageKey a n key).length = 60 := by
  simp [PlainGenerateCompositeStorageKey, length_copyInto, length_PutUint64, AddressLength,
    HashLength]

theorem take_of_mem_storageEntries (kv : KV) (toBlock : Nat) (k : Bytes) (acc : Account)
    (kk vv : Bytes) (hk : k.length = 20) (hmem : (kk, vv) ∈ storageEntries kv toBlock k acc) :
    kk.take 28 = k ++ PutUint64 acc.Incarnation := by
  simp only [storageEntries, asOfView, List.mem_filterMap] at hmem
  obtain ⟨e, _, he⟩ := hmem
  split at he
  · rename_i hcond
    obtain ⟨_, hmatch⟩ := hcond
    simp only [Option.map_eq_some'] at he
    obtain ⟨w, _, hw⟩ := he
    simp only [Prod.mk.injEq] at hw
    obtain ⟨hkey, _⟩ := hw
    subst hkey
    simp only [matchesFixedBits, AddressLength, IncarnationLength, Bool.and_eq_true,
      decide_eq_true_eq] at hmatch
    have h1 : List.take 28 e.key
        = List.take 28 (PlainGenerateStoragePrefix k acc.Incarnation) := hmatch.1
    rw [h1, List.take_of_length_le (by rw [length_PlainGenerateStoragePrefix]),
      PlainGenerateStoragePrefix, copyInto_of_length AddressLength k hk]
  · simp at he

/-- C3: for an account at a twenty-byte address `k` with incarnation `n` (a
`uint64`) and any entry `(kk, vv)` that the inner storage walk yields for it,
the inner visitor hands to `mt.Put`, for the account-state table, the value `vv`
under the key `k || n || slot`: sixty bytes whose first twenty are `k`, whose
next eight are the big-endian `n`, and whose last thirty-two are the slot
taken from `kk`; when `Put` accepts it, exactly that write is staged.  For a
sixty-byte `kk` the staged key is `kk` itself. -/
theorem innerVisitor_stages_composite_key (env : Env) (kv : KV) (toBlock : Nat)
    (k : Bytes) (acc : Account) (st : Batch × env.Trie) (kk vv : Bytes)
    (hk : k.length = 20) (hn : acc.Incarnation < 2 ^ 64)
    (hmem : (kk, vv) ∈ storageEntries kv toBlock k acc) :
    innerVisitor env acc st kk vv =
      (match env.Put .PlainStateBucket
          (k ++ PutUint64 acc.Incarnation ++ BytesToHash (kk.drop 20)) vv with
        | some e => (st, .ret false (some e))
        | none =>
          ((⟨st.1.staged ++ [⟨.PlainStateBucket,
                k ++ PutUint64 acc.Incarnation ++ BytesToHash (kk.drop 20), vv⟩],
              st.1.committed⟩,
            env.trieUpdate st.2 (env.HashData (kk.drop 20)) vv), .ret true none)) ∧
    (k ++ PutUint64 acc.Incarnation ++ BytesToHash (kk.drop 20)).length = 20 + 8 + 32 ∧
    (k ++ PutUint64 acc.Incarnation ++ BytesToHash (kk.drop 20)).take 20 = k ∧
    ((k ++ PutUint64 acc.Incarnation ++ BytesToHash (kk.drop 20)).drop 20).take 8
      = PutUint64 acc.Incarnation ∧
    Uint64 ((k ++ PutUint64 acc.Incarnation ++ BytesToHash (kk.drop 20)).drop 20)
      = acc.Incarnation ∧
    (k ++ PutUint64 acc.Incarnation ++ BytesToHash (kk.drop 20)).drop 28
      = BytesToHash (kk.drop 20) ∧
    (kk.length = 60 →
      k ++ PutUint64 acc.Incarnation ++ BytesToHash (kk.drop 20) = kk) := by
  have h28 := take_of_mem_storageEntries kv toBlock k acc kk vv hk hmem
  have hlen28 : 28 ≤ kk.length := by
    have := congrArg List.length h28
    simp only [List.length_take, List.length_append, hk, length_PutUint64] at this
    omega
  have h20 : kk.take 20 = k := by
    have := congrArg (List.take 20) h28
    rw [List.take_take, List.take_append_of_le_length (by omega)] at this
    simpa [List.take_of_length_le (Nat.le_of_eq hk)] using this
  have hkey : PlainGenerateCompositeStorageKey (BytesToAddress (kk.take AddressLength))
      acc.Incarnation (BytesToHash (kk.drop AddressLength))
        = k ++ PutUint64 acc.Incarnation ++ BytesToHash (kk.drop 20) := by
    have ha : BytesToAddress (List.take 20 kk) = k := by
      rw [h20]; exact setBytes_of_length _ _ hk
    simp only [PlainGenerateCompositeStorageKey, AddressLength, ha]
    rw [copyInto_of_length 20 k hk,
      copyInto_of_length HashLength (BytesToHash (List.drop 20 kk))
        (length_setBytes HashLength _)]
  have hdrop20 : (k ++ PutUint64 acc.Incarnation ++ BytesToHash (kk.drop 20)).drop 20
      = PutUint64 acc.Incarnation ++ BytesToHash (kk.drop 20) := by
    rw [List.append_assoc, List.drop_left' hk]
  refine ⟨?_, ?_, ?_, ?_, ?_, ?_, ?_⟩
  · have hnot : ¬ kk.length < AddressLength := by simp only [AddressLength]; omega
    simp only [innerVisitor, if_neg hnot, mtPut, hkey, CopyBytes]
    cases env.Put .PlainStateBucket
      (k ++ PutUint64 acc.Incarnation ++ BytesToHash (kk.drop 20)) vv <;> rfl
  · simp [hk, length_PutUint64, BytesToHash, length_setBytes, HashLength]
  · rw [List.append_assoc, List.take_left' hk]
  · rw [hdrop20, List.take_left' (length_PutUint64 _)]
  · rw [hdrop20]; exact Uint64_PutUint64 _ hn _
  · rw [List.append_assoc, ← List.append_assoc k, List.drop_left' (by
      simp [hk, length_PutUint64])]
  · intro h60
    have hslot : BytesToHash (kk.drop 20) = kk.drop 28 := by
      simp only [BytesToHash, setBytes, HashLength, List.length_drop, h60, List.drop_drop]
      simp
    rw [hslot, ← h28, List.take_append_drop]

/-- C3, at a concrete input: the first storage slot of the contract account of
`contractKV` is staged under `address || incarnation || slot`. -/
theorem innerVisitor_stages_composite_key_witness :
    innerVisitor (demoEnv contractKV none (fun _ => false)) contractAccount
        (⟨[], []⟩, []) (demoAddress ++ PutUint64 1 ++ demoSlot) [7]
      = ((⟨[⟨.PlainStateBucket, demoAddress ++ PutUint64 1 ++ demoSlot, [7]⟩], []⟩,
          [(PutUint64 1 ++ demoSlot, [7])]), .ret true none) :=
  (innerVisitor_stages_composite_key (demoEnv contractKV none (fun _ => false)) contractKV 15
    demoAddress contractAccount (⟨[], []⟩, []) (demoAddress ++ PutUint64 1 ++ demoSlot) [7]
    (by decide) (by decide) (by decide)).1

/-! ### The storage trie -/

theorem hashed_bytes_of_mem_storageEntries (kv : KV) (toBlock : Nat) (k : Bytes)
    (acc : Account) (kk vv : Bytes) (hk : k.length = 20)
    (hmem : (kk, vv) ∈ storageEntries kv toBlock k acc) :
    kk.drop 20 = PutUint64 acc.Incarnation ++ kk.drop 28 ∧
    8 ≤ (kk.drop 20).length := by
  have h28 := take_of_mem_storageEntries kv toBlock k acc kk vv hk hmem
  have hlen28 : 28 ≤ kk.length := by
    have := congrArg List.length h28
    simp only [List.length_take, List.length_append, hk, length_PutUint64] at this
    omega
  have hsplit : kk = (k ++ PutUint64 acc.Incarnation) ++ kk.drop 28 := by
    rw [← h28, List.take_append_drop]
  refine ⟨?_, by simp only [List.length_drop]; omega⟩
  conv_lhs => rw [hsplit]
  rw [List.append_assoc, List.drop_left' hk]

theorem innerVisitor_trie_update (env : Env) (acc : Account) (mt : Batch) (t : env.Trie)
    (kk vv : Bytes) (hlen : 20 ≤ kk.length)
    (hput : env.Put .PlainStateBucket (storageWrite acc (kk, vv)).key vv = none) :
    (innerVisitor env acc (mt, t) kk vv).1.2
      = env.trieUpdate t (env.HashData (kk.drop 20)) vv := by
  rcases innerVisitor_cases env acc mt t kk vv with ⟨hl, _⟩ | ⟨e, hv⟩ | ⟨_, _, hv⟩
  · simp only [AddressLength] at hl; omega
  · have hnot : ¬ kk.length < AddressLength := by simp only [AddressLength]; omega
    simp only [storageWrite, CopyBytes] at hput
    simp [innerVisitor, hnot, mtPut, CopyBytes, hput] at hv
  · rw [hv]; rfl

/-- C4 (evaluation at the failing input): the first storage slot of the contract
account of `contractKV` is yielded by the inner walk under the sixty-byte key
`address || incarnation || slot`.  The visitor stages it under a key whose
last thirty-two bytes are the slot, yet the one trie update it makes is keyed
by the hash of the forty bytes `incarnation || slot`, not by the hash of the
slot; the root written into the account is the hash of the trie so keyed.
(The hash is the identity here and the trie the list of its updates, so the
results show the bytes hashed.) -/
theorem innerVisitor_hashes_incarnation_and_slot :
    (demoAddress ++ PutUint64 1 ++ demoSlot, [7])
      ∈ storageEntries contractKV 15 demoAddress contractAccount ∧
    (storageWrite contractAccount (demoAddress ++ PutUint64 1 ++ demoSlot, [7])).key.drop 28
      = demoSlot ∧
    @Eq (List (Bytes × Bytes))
      (innerVisitor (demoEnv contractKV none (fun _ => false)) contractAccount
        (⟨[], []⟩, []) (demoAddress ++ PutUint64 1 ++ demoSlot) [7]).1.2
      [(PutUint64 1 ++ demoSlot, [7])] ∧
    @Ne (List (Bytes × Bytes))
      (innerVisitor (demoEnv contractKV none (fun _ => false)) contractAccount
        (⟨[], []⟩, []) (demoAddress ++ PutUint64 1 ++ demoSlot) [7]).1.2
      [(demoSlot, [7])] ∧
    storageRoot (demoEnv contractKV none (fun _ => false)) contractKV 15 demoAddress
        contractAccount
      = (PutUint64 1 ++ demoSlot ++ [7]) ++ (PutUint64 1 ++ demoSlot2 ++ [8]) ∧
    storageRoot (demoEnv contractKV none (fun _ => false)) contractKV 15 demoAddress
        contractAccount
      ≠ (demoSlot ++ [7]) ++ (demoSlot2 ++ [8]) := by
  decide

/-! ### The account record -/

theorem filter_account_key_storageWrites (acc : Account) (k : Bytes) (hk : k.length = 20)
    (es : List (Bytes × Bytes)) :
    (es.map (storageWrite acc)).filter
      (fun w => decide (w.bucket = .PlainStateBucket ∧ w.key = k)) = [] := by
  rw [List.filter_eq_nil_iff]
  intro w hw
  simp only [List.mem_map] at hw
  obtain ⟨e, _, rfl⟩ := hw
  simp only [decide_eq_true_eq, not_and]
  intro _ hkey
  have := congrArg List.length hkey
  simp only [storageWrite, length_PlainGenerateCompositeStorageKey, hk] at this
  omega

theorem filter_account_key_codeWrites (kv : KV) (k k1 : Bytes) (acc : Account) :
    (codeWrites kv k acc).filter
      (fun w => decide (w.bucket = .PlainStateBucket ∧ w.key = k1)) = [] := by
  rw [List.filter_eq_nil_iff]
  intro w hw
  simp only [decide_eq_true_eq, not_and]
  intro hb
  simp only [codeWrites, List.mem_cons] at hw
  rcases hw with rfl | hw
  · simp at hb
  · split at hw
    · split at hw
      · simp only [List.mem_singleton] at hw
        subst hw
        simp at hb
      · simp at hw
    · simp at hw

/-- C5: when the visit of an entry `(k, v)` with a twenty-byte key that decodes
to `acc` raises no error, the writes staged by the visit are the account
group of `acc`; in it exactly one write goes to the account table under the
key `k`, and its value is the encoding of `acc` with, when the incarnation is
positive, only `Root` replaced by the hash of the storage trie (every other
field is the one decoded).  With incarnation zero that record is the only
write of the visit, and it is `v` itself when encoding inverts decoding. -/
theorem outerVisitor_stages_one_account_record (env : Env) (kv : KV) (toBlock : Nat)
    (s s1 : RunState) (k v : Bytes) (acc : Account)
    (hk : k.length = 20) (hdec : env.DecodeForStorage v = .ok acc)
    (hok : outerVisitor env kv toBlock s k v = (s1, .ret true none)) :
    s1.mt.committed.flatten ++ s1.mt.staged
      = s.mt.committed.flatten ++ s.mt.staged ++ accountGroup env kv toBlock k acc ∧
    (accountGroup env kv toBlock k acc).filter
        (fun w => decide (w.bucket = .PlainStateBucket ∧ w.key = k))
      = [⟨.PlainStateBucket, k, env.EncodeForStorage (patchedAccount env kv toBlock k acc)⟩] ∧
    (acc.Incarnation = 0 →
      patchedAccount env kv toBlock k acc = acc ∧
      accountGroup env kv toBlock k acc = [⟨.PlainStateBucket, k, env.EncodeForStorage acc⟩] ∧
      ((∀ b a, env.DecodeForStorage b = .ok a → env.EncodeForStorage a = b) →
        accountGroup env kv toBlock k acc = [⟨.PlainStateBucket, k, v⟩])) ∧
    (acc.Incarnation > 0 →
      patchedAccount env kv toBlock k acc
        = { acc with Root := env.trieHash ((storageEntries kv toBlock k acc).foldl
            (fun t e => env.trieUpdate t (env.HashData (e.1.drop 20)) e.2) env.trieNew) }) ∧
    (patchedAccount env kv toBlock k acc).Initialised = acc.Initialised ∧
    (patchedAccount env kv toBlock k acc).Nonce = acc.Nonce ∧
    (patchedAccount env kv toBlock k acc).Balance = acc.Balance ∧
    (patchedAccount env kv toBlock k acc).CodeHash = acc.CodeHash ∧
    (patchedAccount env kv toBlock k acc).Incarnation = acc.Incarnation := by
  refine ⟨?_, ?_, ?_, ?_, ?_⟩
  · rcases outerVisitor_cases env kv toBlock s k v with
      ⟨mt1, r, h, _, hr⟩ | ⟨hne, _⟩ | ⟨acc1, _, hdec1, _, h⟩ | ⟨acc1, _, hdec1, _, h⟩
    · rw [h] at hok
      simp only [Prod.mk.injEq] at hok
      rcases hr with hr | ⟨e, hr⟩ <;> rw [hr] at hok <;> simp at hok
    · exact absurd hk hne
    · rw [hdec] at hdec1
      cases hdec1
      rw [h] at hok
      simp only [Prod.mk.injEq, and_true] at hok
      subst hok
      simp [List.append_assoc]
    · rw [hdec] at hdec1
      cases hdec1
      rw [h] at hok
      simp only [Prod.mk.injEq, and_true] at hok
      subst hok
      simp [List.append_assoc]
  · unfold accountGroup
    rw [List.filter_append]
    have hfirst : (if acc.Incarnation > 0 then
        (storageEntries kv toBlock k acc).map (storageWrite acc) ++ codeWrites kv k acc
          else []).filter (fun w => decide (w.bucket = .PlainStateBucket ∧ w.key = k)) = [] := by
      split
      · rw [List.filter_append, filter_account_key_storageWrites acc k hk,
          filter_account_key_codeWrites]
        rfl
      · rfl
    rw [hfirst]
    simp [accountWrite, CopyBytes]
  · intro h0
    have hp : patchedAccount env kv toBlock k acc = acc := by
      simp [patchedAccount, h0]
    have hg : accountGroup env kv toBlock k acc
        = [⟨.PlainStateBucket, k, env.EncodeForStorage acc⟩] := by
      simp [accountGroup, accountWrite, hp, h0, CopyBytes]
    refine ⟨hp, hg, fun hinv => ?_⟩
    rw [hg, hinv v acc hdec]
  · intro hpos
    simp only [patchedAccount, if_pos hpos, storageRoot]
    rfl
  · unfold patchedAccount
    split <;> simp

/-- C5, at a concrete input: the contract account of `contractKV`, visited as of
block 15, is staged after its two storage slots and its code with only its
root replaced. -/
theorem outerVisitor_stages_one_account_record_witness :
    (accountGroup (demoEnv contractKV none (fun _ => false)) contractKV 15 demoAddress
        contractAccount).filter
        (fun w => decide (w.bucket = .PlainStateBucket ∧ w.key = demoAddress))
      = [⟨.PlainStateBucket, demoAddress,
          1 :: 5 :: 1 :: (PutUint64 1 ++ demoSlot ++ [7] ++ (PutUint64 1 ++ demoSlot2 ++ [8]))⟩] :=
  (outerVisitor_stages_one_account_record (demoEnv contractKV none (fun _ => false))
    contractKV 15 ⟨0, ⟨[], []⟩⟩
    ⟨1, ⟨[⟨.PlainStateBucket, demoAddress ++ PutUint64 1 ++ demoSlot, [7]⟩,
          ⟨.PlainStateBucket, demoAddress ++ PutUint64 1 ++ demoSlot2, [8]⟩,
          ⟨.PlainContractCodeBucket, demoAddress ++ PutUint64 1, [9, 9]⟩,
          ⟨.CodeBucket, [9, 9], [96, 0]⟩,
          ⟨.PlainStateBucket, demoAddress,
            1 :: 5 :: 1 :: (PutUint64 1 ++ demoSlot ++ [7] ++ (PutUint64 1 ++ demoSlot2 ++ [8]))⟩],
        []⟩⟩
    demoAddress [1, 5, 1] contractAccount (by decide) rfl (by decide)).2.1

/-! ### Code lookup -/

/-- C6 (evaluation at the failing input): the contract has a code-hash pointer
`0909` but the code table has no entry for it.  The run fails and stages no
account record, but the error returned is the bare `ErrKeyNotFound` of the
lookup, whose message does not name the code hash. -/
theorem GenerateStateSnapshot_missing_code_returns_bare_lookup_error :
    GenerateStateSnapshot (demoEnv missingCodeKV none (fun _ => false)) "db" "snap" 15 "" ""
      = ⟨[.RemoveAll "snap", .OpenSource "db", .OpenSnapshot "snap", .Begin 0, .Begin 1,
            .Rollback 0],
          ⟨[⟨.PlainStateBucket, demoAddress ++ PutUint64 1 ++ demoSlot, [7]⟩,
            ⟨.PlainStateBucket, demoAddress ++ PutUint64 1 ++ demoSlot2, [8]⟩,
            ⟨.PlainContractCodeBucket, demoAddress ++ PutUint64 1, [9, 9]⟩], []⟩,
          .returned (some .ErrKeyNotFound)⟩ ∧
    GoError.Error .ErrKeyNotFound = "db: key not found" := by
  decide

/-! ### Batches -/

theorem copyCode_code_lookup_error (env : Env) (kv : KV) (k : Bytes) (acc : Account)
    (mt : Batch) (codeHash : Bytes) (e : GoError)
    (hptr : kv.Get .PlainContractCodeBucket (PlainGenerateStoragePrefix k acc.Incarnation)
      = .ok codeHash)
    (hput : env.Put .PlainContractCodeBucket (PlainGenerateStoragePrefix k acc.Incarnation)
      codeHash = none)
    (hlen : codeHash.length > 0) (hcode : kv.Get .CodeBucket codeHash = .error e) :
    copyCode env kv k acc mt =
      (⟨mt.staged ++ [⟨.PlainContractCodeBucket,
          PlainGenerateStoragePrefix k acc.Incarnation, codeHash⟩], mt.committed⟩, some e) := by
  simp [copyCode, hptr, mtPut, hput, hlen, hcode]

theorem wholeAccounts_nil (env : Env) (kv : KV) (toBlock : Nat) :
    WholeAccounts env kv toBlock [] :=
  ⟨[], by simp, rfl⟩

theorem wholeAccounts_append_group (env : Env) (kv : KV) (toBlock : Nat) (batch : List Write)
    (k : Bytes) (acc : Account) (hk : k.length = 20)
    (h : WholeAccounts env kv toBlock batch) :
    WholeAccounts env kv toBlock (batch ++ accountGroup env kv toBlock k acc) := by
  obtain ⟨accounts, hlen, hb⟩ := h
  refine ⟨accounts ++ [(k, acc)], ?_, ?_⟩
  · intro p hp
    rw [List.mem_append] at hp
    rcases hp with hp | hp
    · exact hlen p hp
    · simp only [List.mem_singleton] at hp
      subst hp
      exact hk
  · rw [hb]
    simp

theorem walk_whole (env : Env) (kv : KV) (toBlock : Nat) :
    ∀ (es : List (Bytes × Bytes)) (s s1 : RunState) (st : WalkStatus),
      walkEntries (outerVisitor env kv toBlock) es s = (s1, st) →
      WholeAccounts env kv toBlock s.mt.staged →
      (∀ B ∈ s.mt.committed, WholeAccounts env kv toBlock B) →
      (∀ B ∈ s1.mt.committed, WholeAccounts env kv toBlock B) ∧
      ((st = .completed ∨ st = .stopped) → WholeAccounts env kv toBlock s1.mt.staged) := by
  intro es
  induction es with
  | nil =>
    intro s s1 st h hs hc
    simp only [walkEntries, Prod.mk.injEq] at h
    obtain ⟨h1, h2⟩ := h
    subst h1 h2
    exact ⟨hc, fun _ => hs⟩
  | cons e rest ih =>
    intro s s1 st h hs hc
    obtain ⟨k, v⟩ := e
    simp only [walkEntries] at h
    rcases outerVisitor_cases env kv toBlock s k v with
      ⟨mt1, r, hv, hcm, hr⟩ | ⟨_, hv⟩ | ⟨acc, hk, _, _, hv⟩ | ⟨acc, hk, _, _, hv⟩
    · rw [hv] at h
      rcases hr with hr | ⟨e, hr⟩
      · subst hr
        simp only [Prod.mk.injEq] at h
        obtain ⟨h1, h2⟩ := h
        subst h1 h2
        refine ⟨?_, fun hst => ?_⟩
        · simp only [hcm]; exact hc
        · rcases hst with hst | hst <;> cases hst
      · subst hr
        simp only [Prod.mk.injEq] at h
        obtain ⟨h1, h2⟩ := h
        subst h1 h2
        refine ⟨?_, fun hst => ?_⟩
        · simp only [hcm]; exact hc
        · rcases hst with hst | hst <;> cases hst
    · rw [hv] at h
      exact ih _ s1 st h hs hc
    · rw [hv] at h
      exact ih _ s1 st h (wholeAccounts_append_group env kv toBlock _ k acc hk hs) hc
    · rw [hv] at h
      refine ih _ s1 st h (wholeAccounts_nil env kv toBlock) ?_
      intro B hB
      simp only [List.mem_append, List.mem_singleton] at hB
      rcases hB with hB | hB
      · exact hc B hB
      · subst hB
        exact wholeAccounts_append_group env kv toBlock _ k acc hk hs

/-- C7: the batch is flushed only by the visit of an account, right after the
record of that account has been staged, and exactly when the batch size has
then reached the ideal size; a visit that fails commits nothing.  Every group
of writes of an account ends with its record, preceded, when the incarnation
is positive, by all its storage entries and its code, and the record carries
the hash of the trie over exactly those storage entries.  Hence every batch
committed by a run, by a flush or by the final commit, is made of whole
account groups. -/
theorem committed_batches_hold_whole_accounts (env : Env) (dbPath snapshotPath : String)
    (toBlock : Nat) (snapshotDir snapshotMode : String) (kv : KV) (events : List Event)
    (hstart : Started env dbPath snapshotPath snapshotDir snapshotMode kv events) :
    (∀ B ∈ (GenerateStateSnapshot env dbPath snapshotPath toBlock snapshotDir
        snapshotMode).mt.committed, WholeAccounts env kv toBlock B) ∧
    (∀ s k v, (outerVisitor env kv toBlock s k v).1.mt.committed = s.mt.committed ∨
      ∃ acc, k.length = 20 ∧ env.DecodeForStorage v = .ok acc ∧
        env.IdealBatchSize ≤ env.BatchSize (s.mt.staged ++ accountGroup env kv toBlock k acc) ∧
        outerVisitor env kv toBlock s k v =
          (⟨s.i + 1, ⟨[], s.mt.committed ++ [s.mt.staged ++ accountGroup env kv toBlock k acc]⟩⟩,
            .ret true none)) ∧
    (∀ s k v acc, k.length = 20 → env.DecodeForStorage v = .ok acc →
      (outerVisitor env kv toBlock s k v).2 = .ret true none →
      (outerVisitor env kv toBlock s k v).1.mt =
        if env.IdealBatchSize ≤ env.BatchSize (s.mt.staged ++ accountGroup env kv toBlock k acc)
        then ⟨[], s.mt.committed ++ [s.mt.staged ++ accountGroup env kv toBlock k acc]⟩
        else ⟨s.mt.staged ++ accountGroup env kv toBlock k acc, s.mt.committed⟩) ∧
    (∀ k acc, accountGroup env kv toBlock k acc =
      (if acc.Incarnation > 0 then
        (storageEntries kv toBlock k acc).map (storageWrite acc) ++ codeWrites kv k acc
      else []) ++
      [⟨.PlainStateBucket, k, env.EncodeForStorage (patchedAccount env kv toBlock k acc)⟩] ∧
      (acc.Incarnation > 0 →
        (patchedAccount env kv toBlock k acc).Root =
          env.trieHash ((storageEntries kv toBlock k acc).foldl
            (fun t e => env.trieUpdate t (env.HashData (e.1.drop 20)) e.2) env.trieNew))) := by
  refine ⟨?_, ?_, ?_, ?_⟩
  · rw [GenerateStateSnapshot_started env dbPath snapshotPath toBlock snapshotDir
      snapshotMode kv events hstart]
    unfold walkAndCommit
    rcases hw : walkEntries (outerVisitor env kv toBlock) (accountEntries kv toBlock)
      ⟨0, ⟨[], []⟩⟩ with ⟨s, st⟩
    obtain ⟨hc, hs⟩ := walk_whole env kv toBlock _ _ s st hw
      (wholeAccounts_nil env kv toBlock) (by simp)
    cases st with
    | panicked => exact hc
    | failed e => exact hc
    | completed =>
      simp only [mtCommit]
      cases env.Commit s.mt.staged with
      | some e => exact hc
      | none =>
        intro B hB
        simp only [List.mem_append, List.mem_singleton] at hB
        rcases hB with hB | hB
        · exact hc B hB
        · subst hB; exact hs (Or.inl rfl)
    | stopped =>
      simp only [mtCommit]
      cases env.Commit s.mt.staged with
      | some e => exact hc
      | none =>
        intro B hB
        simp only [List.mem_append, List.mem_singleton] at hB
        rcases hB with hB | hB
        · exact hc B hB
        · subst hB; exact hs (Or.inr rfl)
  · intro s k v
    rcases outerVisitor_cases env kv toBlock s k v with
      ⟨mt1, r, hv, hcm, _⟩ | ⟨_, hv⟩ | ⟨acc, _, _, _, hv⟩ | ⟨acc, hk, hdec, hsz, hv⟩
    · left; rw [hv]; exact hcm
    · left; rw [hv]
    · left; rw [hv]
    · right; exact ⟨acc, hk, hdec, hsz, hv⟩
  · intro s k v acc hk hdec hok
    rcases outerVisitor_cases env kv toBlock s k v with
      ⟨mt1, r, hv, _, hr⟩ | ⟨hne, _⟩ | ⟨acc1, _, hdec1, hsz, hv⟩ | ⟨acc1, _, hdec1, hsz, hv⟩
    · rw [hv] at hok
      rcases hr with hr | ⟨e, hr⟩ <;> rw [hr] at hok <;> simp at hok
    · exact absurd hk hne
    · rw [hdec] at hdec1
      cases hdec1
      rw [hv, if_neg (Nat.not_le_of_lt hsz)]
    · rw [hdec] at hdec1
      cases hdec1
      rw [hv, if_pos hsz]
  · intro k acc
    refine ⟨rfl, fun hpos => ?_⟩
    simp only [patchedAccount, if_pos hpos, storageRoot]
    rfl

/-- C7, at a concrete input: with an ideal batch size of two writes the
contract account of `contractKV` is flushed in one batch together with its
two storage slots and its code, and that batch is a whole account group. -/
theorem committed_batches_hold_whole_accounts_witness :
    WholeAccounts (flushEnv contractKV) contractKV 15
      [⟨.PlainStateBucket, demoAddress ++ PutUint64 1 ++ demoSlot, [7]⟩,
       ⟨.PlainStateBucket, demoAddress ++ PutUint64 1 ++ demoSlot2, [8]⟩,
       ⟨.PlainContractCodeBucket, demoAddress ++ PutUint64 1, [9, 9]⟩,
       ⟨.CodeBucket, [9, 9], [96, 0]⟩,
       ⟨.PlainStateBucket, demoAddress,
         1 :: 5 :: 1 :: (PutUint64 1 ++ demoSlot ++ [7] ++ (PutUint64 1 ++ demoSlot2 ++ [8]))⟩] :=
  (committed_batches_hold_whole_accounts (flushEnv contractKV) "db" "snap" 15 "" ""
    contractKV [.RemoveAll "snap", .OpenSource "db", .OpenSnapshot "snap", .Begin 0, .Begin 1]
    ⟨by decide, rfl, contractKV, [], rfl, rfl, rfl, rfl, rfl, rfl⟩).1 _ (by decide)

/-! ### Supporting facts on the bound and on the deferred rollback -/

theorem asOfBound_below_max (toBlock : Nat) (h : toBlock + 1 < 2 ^ 64) :
    asOfBound toBlock = toBlock + 1 ∧ ∀ b, b < asOfBound toBlock ↔ b ≤ toBlock := by
  have hb : asOfBound toBlock = toBlock + 1 := Nat.mod_eq_of_lt h
  refine ⟨hb, fun b => ?_⟩
  rw [hb]
  omega

theorem walkAndCommit_rolls_back (env : Env) (kv : KV) (toBlock : Nat)
    (events : List Event) :
    (walkAndCommit env kv toBlock events).events = events ++ [.Rollback 0] := by
  unfold walkAndCommit
  rcases walkEntries (outerVisitor env kv toBlock) (accountEntries kv toBlock)
    ⟨0, ⟨[], []⟩⟩ with ⟨s, st⟩
  cases st <;> simp only <;> rcases mtCommit env s.mt with ⟨mt1, _ | e⟩ <;> rfl

end Generate
